import Mathlib

/-!
Verification development for the blizzconv DUN dungeon pipeline.

The Go source is shallowly embedded:
* `configs/dun/dun.go`: the full-stream `Parse` (reading 16-bit little-endian
  values from a byte stream), `GetLevelName`, and the grid data model.
* the `dunmini` package: the fixed-size `Parse` variant over a flat byte
  buffer, `Image` (modelled as the ordered trace of draw operations it
  issues), `GetPillarRect` and `getArchID`.

Go slice/array index accesses carry no bounds checks and panic when out of
range; the embedding makes every such access explicit and returns a
distinguished `Fault.crash` outcome for a panic, as opposed to `Fault.ioErr`
for an `error` value returned to the caller.  Go `map[string]int` cells are
modelled as association lists where an insertion conses a binding and a
lookup finds the most recent one.  External collaborators (MPQ path lookup,
TIL square-table parsing, CEL raster decoding, ini configuration) are passed
in as resolved parameters, as the spec treats them as external interfaces.
-/

set_option maxHeartbeats 1000000

namespace Blizzconv

/-- Maximum number of cols in a dungeon map (`ColMax` in dun.go). -/
def ColMax : Nat := 112

/-- Maximum number of rows in a dungeon map (`RowMax` in dun.go). -/
def RowMax : Nat := 112

/-- A cell's attribute map (`map[string]int` in Go): an association list where
the most recent insertion wins on lookup. -/
abbrev Attrs := List (String × Int)

/-- Insertion into a cell's attribute map (Go `m[key] = v`). -/
def attrSet (m : Attrs) (key : String) (v : Int) : Attrs := (key, v) :: m

/-- Lookup in a cell's attribute map (Go `v, ok := m[key]`); `none` models
`ok = false`, i.e. the attribute is absent. -/
def attrGet (m : Attrs) (key : String) : Option Int :=
  match m with
  | [] => none
  | (k, v) :: rest => if k = key then some v else attrGet rest key

/-- The dungeon grid: `[ColMax][RowMax]map[string]int` in Go, modelled as a
total function from (col, row) to the cell's attribute map. -/
abbrev Grid := Nat → Nat → Attrs

/-- The grid produced by `New`: every cell an empty attribute map. -/
def emptyGrid : Grid := fun _ _ => []

/-- Go read errors surfaced by `binary.Read`: `io.EOF` when no byte is
available, `io.ErrUnexpectedEOF` when the value is cut short. -/
inductive ReadErr
  | eof
  | unexpectedEof
  deriving DecidableEq

/-- The program point of a Go runtime index-out-of-range panic: the square
table lookup, a dungeon grid write, or the flat square-id buffer read. -/
inductive PanicKind
  | squareIdx
  | gridIdx
  | bufIdx
  deriving DecidableEq

/-- Abnormal outcome of a parse: an `error` value returned to the caller
(`ioErr`) or a runtime panic from an unchecked index access (`crash`). -/
inductive Fault
  | ioErr (e : ReadErr)
  | crash (k : PanicKind)
  deriving DecidableEq

/-- One square of the TIL table: four pillar indices (til.Square). -/
structure Square where
  pillarNumTop : Int
  pillarNumRight : Int
  pillarNumLeft : Int
  pillarNumBottom : Int
  deriving DecidableEq

/-- Reads one 16-bit little-endian value from the byte stream
(`binary.Read(fr, binary.LittleEndian, &x)` for `x : uint16`): `io.EOF` on an
empty stream, `io.ErrUnexpectedEOF` when only one byte remains. -/
def read16 : List Nat → Except Fault (Nat × List Nat)
  | [] => .error (.ioErr .eof)
  | [_] => .error (.ioErr .unexpectedEof)
  | b0 :: b1 :: rest => .ok (b0 + 256 * b1, rest)

/-- Reads the DUN header (`binary.Read` of `[2]uint16`, i.e. 4 bytes in one
read): `io.EOF` on an empty stream, `io.ErrUnexpectedEOF` when 1 to 3 bytes
remain. -/
def readHeader : List Nat → Except Fault (Nat × Nat × List Nat)
  | b0 :: b1 :: b2 :: b3 :: rest => .ok (b0 + 256 * b1, b2 + 256 * b3, rest)
  | [] => .error (.ioErr .eof)
  | _ => .error (.ioErr .unexpectedEof)

/-- A checked write `dungeon[c][r][key] = v`: `none` models the runtime
index-out-of-range panic of the unchecked Go array access. -/
def gridSet (g : Grid) (c r : Nat) (key : String) (v : Int) : Option Grid :=
  if c < ColMax ∧ r < RowMax then
    some (fun c1 r1 => if c1 = c ∧ r1 = r then attrSet (g c r) key v else g c1 r1)
  else
    none

/-- The four `pillarNum` writes of one square block, in source order:
`(col,row)=top`, `(col+1,row)=right`, `(col,row+1)=left`,
`(col+1,row+1)=bottom`. -/
def writeSquare (g : Grid) (col row : Nat) (sq : Square) : Option Grid :=
  (gridSet g col row "pillarNum" sq.pillarNumTop).bind fun g1 =>
    (gridSet g1 (col + 1) row "pillarNum" sq.pillarNumRight).bind fun g2 =>
      (gridSet g2 col (row + 1) "pillarNum" sq.pillarNumLeft).bind fun g3 =>
        gridSet g3 (col + 1) (row + 1) "pillarNum" sq.pillarNumBottom

/-- Inner loop of the square plane in dun.go `Parse`: `dunQWidth` steps, each
reading one 16-bit value, expanding a non-zero square id, and advancing `col`
by 2.  The last argument counts the remaining steps. -/
def parseSqRow (squares : List Square) : Grid → List Nat → Nat → Nat → Nat →
    Except Fault (Grid × List Nat)
  | g, s, _, _, 0 => .ok (g, s)
  | g, s, col, row, Nat.succ j =>
    match read16 s with
    | .error e => .error e
    | .ok (v, s1) =>
      if v ≠ 0 then
        match squares[v - 1]? with
        | none => .error (.crash .squareIdx)
        | some sq =>
          match writeSquare g col row sq with
          | none => .error (.crash .gridIdx)
          | some g1 => parseSqRow squares g1 s1 (col + 2) row j
      else
        parseSqRow squares g s1 (col + 2) row j

/-- Outer loop of the square plane in dun.go `Parse`: `dunQHeight` steps each
running one inner row and advancing `row` by 2. -/
def parseSqRows (squares : List Square) (qw colStart : Nat) :
    Grid → List Nat → Nat → Nat → Except Fault (Grid × List Nat)
  | g, s, _, 0 => .ok (g, s)
  | g, s, row, Nat.succ i =>
    match parseSqRow squares g s colStart row qw with
    | .error e => .error e
    | .ok (g1, s1) => parseSqRows squares qw colStart g1 s1 (row + 2) i

/-- Inner loop of one trailing plane: `dunWidth` single-value reads, each
written under `key` and advancing `col` by 1. -/
def planeRow (key : String) : Grid → List Nat → Nat → Nat → Nat →
    Except Fault (Grid × List Nat)
  | g, s, _, _, 0 => .ok (g, s)
  | g, s, col, row, Nat.succ j =>
    match read16 s with
    | .error e => .error e
    | .ok (v, s1) =>
      match gridSet g col row key (v : Int) with
      | none => .error (.crash .gridIdx)
      | some g1 => planeRow key g1 s1 (col + 1) row j

/-- Outer loop of one trailing plane: `dunHeight` rows advancing `row` by 1. -/
def planeRows (key : String) (w colStart : Nat) :
    Grid → List Nat → Nat → Nat → Except Fault (Grid × List Nat)
  | g, s, _, 0 => .ok (g, s)
  | g, s, row, Nat.succ i =>
    match planeRow key g s colStart row w with
    | .error e => .error e
    | .ok (g1, s1) => planeRows key w colStart g1 s1 (row + 1) i

/-- Result of one trailing plane: `done` models the `return nil` taken when
`io.EOF` is hit at the plane's very first read (`i == 0 && j == 0`), ending
the whole parse successfully; `next` carries on to the following plane. -/
inductive PlaneStep
  | done (g : Grid)
  | next (g : Grid) (s : List Nat)

/-- One trailing plane of dun.go `Parse`.  With `w` or `h` zero the loops
read nothing.  Otherwise the first read happens at `i == 0 && j == 0`: an
empty stream there is `io.EOF` and terminates the parse successfully
(`done`); any other read failure — including `io.ErrUnexpectedEOF` on a
single leftover byte — is returned as an error. -/
def parsePlane (key : String) (g : Grid) (s : List Nat) (colStart rowStart w h : Nat) :
    Except Fault PlaneStep :=
  if w = 0 ∨ h = 0 then .ok (.next g s)
  else if s = [] then .ok (.done g)
  else
    match planeRows key w colStart g s rowStart h with
    | .error e => .error e
    | .ok (g1, s1) => .ok (.next g1 s1)

/-- The four trailing planes of dun.go `Parse`, in source order: `unknown`,
`dunMonsterID`, `dunObjectID`, `transparency`.  A `done` step (EOF at a
plane's first read) ends the whole parse successfully. -/
def parsePlanes (g : Grid) (s : List Nat) (colStart rowStart qw qh : Nat) :
    Except Fault Grid :=
  match parsePlane "unknown" g s colStart rowStart (2 * qw) (2 * qh) with
  | .error e => .error e
  | .ok (.done g2) => .ok g2
  | .ok (.next g2 s3) =>
    match parsePlane "dunMonsterID" g2 s3 colStart rowStart (2 * qw) (2 * qh) with
    | .error e => .error e
    | .ok (.done g3) => .ok g3
    | .ok (.next g3 s4) =>
      match parsePlane "dunObjectID" g3 s4 colStart rowStart (2 * qw) (2 * qh) with
      | .error e => .error e
      | .ok (.done g4) => .ok g4
      | .ok (.next g4 s5) =>
        match parsePlane "transparency" g4 s5 colStart rowStart (2 * qw) (2 * qh) with
        | .error e => .error e
        | .ok (.done g5) => .ok g5
        | .ok (.next g5 _) => .ok g5

/-- The full-stream `Parse` of dun.go, after its external collaborators have
resolved: `squares` is the TIL table for the level, `colStart`/`rowStart`
come from the dunconf ini, `g0` is the receiver dungeon and `s` the DUN byte
stream.  Reads the header, expands the square plane, then reads the four
trailing planes. -/
def Parse (squares : List Square) (colStart rowStart : Nat) (g0 : Grid) (s : List Nat) :
    Except Fault Grid :=
  match readHeader s with
  | .error e => .error e
  | .ok (qw, qh, s1) =>
    match parseSqRows squares qw colStart g0 s1 rowStart qh with
    | .error e => .error e
    | .ok (g1, s2) => parsePlanes g1 s2 colStart rowStart qw qh

/-- Inner loop of the fixed-size `dunmini.Parse`: `rowCount` steps, each
reading `squareIDsPlus1[k]` (unchecked in Go: `bufIdx` crash when past the
end), expanding a non-zero id, advancing `row` by 2 and `k` by 1. -/
def parseMiniCol (squares : List Square) (buf : List Nat) : Grid → Nat → Nat → Nat → Nat →
    Except Fault (Grid × Nat)
  | g, k, _, _, 0 => .ok (g, k)
  | g, k, col, row, Nat.succ i =>
    match buf[k]? with
    | none => .error (.crash .bufIdx)
    | some v =>
      if v ≠ 0 then
        match squares[v - 1]? with
        | none => .error (.crash .squareIdx)
        | some sq =>
          match writeSquare g col row sq with
          | none => .error (.crash .gridIdx)
          | some g1 => parseMiniCol squares buf g1 (k + 1) col (row + 2) i
      else
        parseMiniCol squares buf g (k + 1) col (row + 2) i

/-- Outer loop of the fixed-size `dunmini.Parse`: `colCount` steps, each
running one inner column (row reset to 0) and advancing `col` by 2. -/
def parseMiniCols (squares : List Square) (buf : List Nat) (rowCount : Nat) :
    Grid → Nat → Nat → Nat → Except Fault (Grid × Nat)
  | g, k, _, 0 => .ok (g, k)
  | g, k, col, Nat.succ j =>
    match parseMiniCol squares buf g k col 0 rowCount with
    | .error e => .error e
    | .ok (g1, k1) => parseMiniCols squares buf rowCount g1 k1 (col + 2) j

/-- The fixed-size `dunmini.Parse` variant, after its `til.Parse("l1.til")`
collaborator has resolved to `squares`: consumes the flat byte buffer
`squareIDsPlus1` with `colStart = rowStart = 0`. -/
def ParseMini (squares : List Square) (g0 : Grid) (buf : List Nat) (colCount rowCount : Nat) :
    Except Fault Grid :=
  match parseMiniCols squares buf rowCount g0 0 0 colCount with
  | .error e => .error e
  | .ok (g, _) => .ok g

/-- The `k`-th 16-bit little-endian value of a byte stream. -/
def val16 (s : List Nat) (k : Nat) : Nat :=
  s.getD (2 * k) 0 + 256 * s.getD (2 * k + 1) 0

/-- The pillar index a square contributes to the quadrant cell at offset
`(dc, dr)` of its 2×2 block: top, right, left, bottom. -/
def corner (sq : Square) (dc dr : Nat) : Int :=
  if dr = 0 then (if dc = 0 then sq.pillarNumTop else sq.pillarNumRight)
  else (if dc = 0 then sq.pillarNumLeft else sq.pillarNumBottom)

/-- The grid of a successful parse outcome (`emptyGrid` on a fault). -/
def okGrid : Except Fault Grid → Grid
  | .ok g => g
  | .error _ => emptyGrid

/-- Whether a parse outcome is a success. -/
def resOk : Except Fault Grid → Bool
  | .ok _ => true
  | .error _ => false

/-- Modelled from the spec: the fixed per-cell footprint width of the
isometric projection (`min.BlockWidth`; the `min` package is outside the
given sources). -/
def BlockWidth : Int := 32

/-- Modelled from the spec: the fixed per-cell footprint height of the
isometric projection (`min.BlockHeight`; the `min` package is outside the
given sources). -/
def BlockHeight : Int := 32

/-- Modelled from the spec: the fixed pillar raster width
(`min.PillarWidth`; the `min` package is outside the given sources). -/
def PillarWidth : Int := 64

/-- A Go `image.Rectangle` ("well-formed": min ≤ max after `image.Rect`). -/
structure GoRect where
  minX : Int
  minY : Int
  maxX : Int
  maxY : Int
  deriving DecidableEq

/-- Go `image.Rect(x0, y0, x1, y1)`: swaps each coordinate pair when given
in the wrong order so the result is well-formed. -/
def imageRect (x0 y0 x1 y1 : Int) : GoRect :=
  ⟨if x0 ≤ x1 then x0 else x1, if y0 ≤ y1 then y0 else y1,
   if x0 ≤ x1 then x1 else x0, if y0 ≤ y1 then y1 else y0⟩

/-- `GetPillarRect` of the dunmini package: the isometric cell rectangle.
Go integer division truncates toward zero, hence `Int.tdiv`. -/
def GetPillarRect (col row mapWidth pillarHeight : Int) : GoRect :=
  imageRect
    (Int.tdiv mapWidth 2 - BlockWidth - row * BlockWidth + col * BlockWidth)
    (row * Int.tdiv BlockHeight 2 + col * Int.tdiv BlockHeight 2)
    (Int.tdiv mapWidth 2 - BlockWidth - row * BlockWidth + col * BlockWidth + PillarWidth)
    (row * Int.tdiv BlockHeight 2 + col * Int.tdiv BlockHeight 2 + pillarHeight)

/-- Pillar id constants for layout 1 (floor shadows for arches). -/
def PillarIDFloorShadowArchSe_1 : Int := 10

/-- Pillar id constant (see `PillarIDFloorShadowArchSe_1`). -/
def PillarIDFloorShadowArchSe_2 : Int := 248

/-- Pillar id constant (see `PillarIDFloorShadowArchSe_1`). -/
def PillarIDFloorShadowArchSe_3 : Int := 324

/-- Pillar id constant (see `PillarIDFloorShadowArchSe_1`). -/
def PillarIDFloorShadowArchSe_4 : Int := 330

/-- Pillar id constant (see `PillarIDFloorShadowArchSe_1`). -/
def PillarIDFloorShadowArchSe_5 : Int := 343

/-- Pillar id constant (see `PillarIDFloorShadowArchSe_1`). -/
def PillarIDFloorShadowArchSe_6 : Int := 420

/-- Pillar id constant (see `PillarIDFloorShadowArchSe_1`). -/
def PillarIDFloorShadowArchSw2_1 : Int := 258

/-- Pillar id constant (see `PillarIDFloorShadowArchSe_1`). -/
def PillarIDFloorShadowArchSwBroken2_1 : Int := 254

/-- Pillar id constant (see `PillarIDFloorShadowArchSe_1`). -/
def PillarIDFloorShadowArchSw_1 : Int := 11

/-- Pillar id constant (see `PillarIDFloorShadowArchSe_1`). -/
def PillarIDFloorShadowArchSw_2 : Int := 70

/-- Pillar id constant (see `PillarIDFloorShadowArchSe_1`). -/
def PillarIDFloorShadowArchSw_3 : Int := 210

/-- Pillar id constant (see `PillarIDFloorShadowArchSe_1`). -/
def PillarIDFloorShadowArchSw_4 : Int := 320

/-- Pillar id constant (see `PillarIDFloorShadowArchSe_1`). -/
def PillarIDFloorShadowArchSw_5 : Int := 340

/-- Pillar id constant (see `PillarIDFloorShadowArchSe_1`). -/
def PillarIDFloorShadowArchSw_6 : Int := 417

/-- Arch id constant for layout 1. -/
def ArchSe : Int := 1

/-- Arch id constant for layout 1. -/
def ArchSw : Int := 0

/-- Arch id constant for layout 1. -/
def ArchSw2 : Int := 4

/-- Arch id constant for layout 1. -/
def ArchSwBroken2 : Int := 3

/-- `getArchID` of the dunmini package: the arch overlay id for a pillar id,
`none` when the pillar has no associated arch (Go's `ok = false`). -/
def getArchID (pillarID : Int) : Option Int :=
  if pillarID = PillarIDFloorShadowArchSw_1 ∨ pillarID = PillarIDFloorShadowArchSw_2 ∨
     pillarID = PillarIDFloorShadowArchSw_3 ∨ pillarID = PillarIDFloorShadowArchSw_4 ∨
     pillarID = PillarIDFloorShadowArchSw_5 ∨ pillarID = PillarIDFloorShadowArchSw_6 then
    some ArchSw
  else if pillarID = PillarIDFloorShadowArchSe_1 ∨ pillarID = PillarIDFloorShadowArchSe_2 ∨
     pillarID = PillarIDFloorShadowArchSe_3 ∨ pillarID = PillarIDFloorShadowArchSe_4 ∨
     pillarID = PillarIDFloorShadowArchSe_5 ∨ pillarID = PillarIDFloorShadowArchSe_6 then
    some ArchSe
  else if pillarID = PillarIDFloorShadowArchSwBroken2_1 then
    some ArchSwBroken2
  else if pillarID = PillarIDFloorShadowArchSw2_1 then
    some ArchSw2
  else
    none

/-- Source of one `draw.Draw(dst, rect, src, image.ZP, draw.Over)` call in
`Image`: the cell's base pillar raster or an arch overlay raster.  Every
draw uses the alpha-aware `draw.Over` operator. -/
inductive DrawSrc
  | pillarSrc (pillarNum : Int)
  | archSrc (archID : Int)
  deriving DecidableEq

/-- One draw operation issued by `Image`: a source painted over the
destination rectangle with `draw.Over`. -/
structure DrawOp where
  rect : GoRect
  src : DrawSrc
  deriving DecidableEq

/-- Inner column loop of `Image` at a fixed `row`: for each `col`, when the
cell has a `pillarNum`, draw the base pillar raster into its rectangle and,
when `getArchID` matches, the arch overlay raster into the same rectangle. -/
def imageCols (g : Grid) (row : Nat) (mapWidth pillarHeight : Int) : Nat → Nat → List DrawOp
  | _, 0 => []
  | col, Nat.succ j =>
    (match attrGet (g col row) "pillarNum" with
     | none => []
     | some p =>
       ⟨GetPillarRect (Int.ofNat col) (Int.ofNat row) mapWidth pillarHeight, .pillarSrc p⟩ ::
         (match getArchID p with
          | none => []
          | some a =>
            [⟨GetPillarRect (Int.ofNat col) (Int.ofNat row) mapWidth pillarHeight, .archSrc a⟩])) ++
    imageCols g row mapWidth pillarHeight (col + 1) j

/-- Outer row loop of `Image`: rows ascending, then cols ascending. -/
def imageRows (g : Grid) (colCount : Nat) (mapWidth pillarHeight : Int) : Nat → Nat → List DrawOp
  | _, 0 => []
  | row, Nat.succ i =>
    imageCols g row mapWidth pillarHeight 0 colCount ++
      imageRows g colCount mapWidth pillarHeight (row + 1) i

/-- The ordered trace of draw operations issued by `Image` of the dunmini
package, with `mapWidth` computed as in the source from
`maxCount = max colCount rowCount`.  Raster decoding (`cel.DecodeAll`,
`Pillar.Image`) is an external collaborator; the trace records which source
is drawn where, in source order. -/
def imageOps (g : Grid) (colCount rowCount : Nat) (pillarHeight : Int) : List DrawOp :=
  imageRows g colCount
    ((max colCount rowCount : Nat) * BlockWidth + (max colCount rowCount : Nat) * BlockWidth)
    pillarHeight 0 rowCount

/-- The characters of a path up to and including its last slash: the `dir`
component of Go's `path.Split`. -/
def dirChars : List Char → List Char
  | [] => []
  | c :: cs =>
    if cs.contains '/' then c :: dirChars cs
    else if c = '/' then [c]
    else []

/-- The directory component (with trailing slash) of Go's `path.Split`. -/
def pathDir (p : String) : String := String.mk (dirChars p.data)

/-- `GetLevelName` of dun.go, after `mpq.GetRelPath` has resolved the DUN
name to the relative path `relDunPath`: maps the directory component to the
short level code, or returns the `invalid dunDir` error. -/
def GetLevelName (relDunPath : String) : Except String String :=
  if pathDir relDunPath = "levels/l1data/" then .ok "l1"
  else if pathDir relDunPath = "levels/l2data/" then .ok "l2"
  else if pathDir relDunPath = "levels/l3data/" then .ok "l3"
  else if pathDir relDunPath = "levels/l4data/" then .ok "l4"
  else if pathDir relDunPath = "levels/towndata/" then .ok "town"
  else .error ("invalid dunDir (" ++ pathDir relDunPath ++ ").")

/-! ### Basic lemmas about cells and grid writes -/

theorem attrGet_attrSet_self (m : Attrs) (key : String) (v : Int) :
    attrGet (attrSet m key v) key = some v := by
  simp [attrSet, attrGet]

theorem attrGet_attrSet_ne (m : Attrs) (key key' : String) (v : Int) (h : key ≠ key') :
    attrGet (attrSet m key v) key' = attrGet m key' := by
  simp [attrSet, attrGet, h]

theorem gridSet_lt {g : Grid} {c r : Nat} {key : String} {v : Int} {g' : Grid}
    (h : gridSet g c r key v = some g') : c < ColMax ∧ r < RowMax := by
  by_cases hc : c < ColMax ∧ r < RowMax
  · exact hc
  · unfold gridSet at h
    rw [if_neg hc] at h
    cases h

theorem gridSet_self {g : Grid} {c r : Nat} {key : String} {v : Int} {g' : Grid}
    (h : gridSet g c r key v = some g') : g' c r = attrSet (g c r) key v := by
  unfold gridSet at h
  by_cases hc : c < ColMax ∧ r < RowMax
  · rw [if_pos hc] at h
    cases h
    simp
  · rw [if_neg hc] at h
    cases h

theorem gridSet_other {g : Grid} {c r : Nat} {key : String} {v : Int} {g' : Grid}
    (h : gridSet g c r key v = some g') {c1 r1 : Nat} (hne : ¬(c1 = c ∧ r1 = r)) :
    g' c1 r1 = g c1 r1 := by
  unfold gridSet at h
  by_cases hc : c < ColMax ∧ r < RowMax
  · rw [if_pos hc] at h
    cases h
    simp [hne]
  · rw [if_neg hc] at h
    cases h

theorem gridSet_isSome (g : Grid) (c r : Nat) (key : String) (v : Int)
    (hc : c < ColMax) (hr : r < RowMax) : ∃ g', gridSet g c r key v = some g' := by
  unfold gridSet
  rw [if_pos ⟨hc, hr⟩]
  exact ⟨_, rfl⟩

theorem writeSquare_lt {g : Grid} {col row : Nat} {sq : Square} {g' : Grid}
    (h : writeSquare g col row sq = some g') : col + 1 < ColMax ∧ row + 1 < RowMax := by
  unfold writeSquare at h
  cases e1 : gridSet g col row "pillarNum" sq.pillarNumTop with
  | none => rw [e1, Option.none_bind] at h; cases h
  | some g1 =>
    rw [e1, Option.some_bind] at h
    cases e2 : gridSet g1 (col + 1) row "pillarNum" sq.pillarNumRight with
    | none => rw [e2, Option.none_bind] at h; cases h
    | some g2 =>
      rw [e2, Option.some_bind] at h
      cases e3 : gridSet g2 col (row + 1) "pillarNum" sq.pillarNumLeft with
      | none => rw [e3, Option.none_bind] at h; cases h
      | some g3 =>
        rw [e3, Option.some_bind] at h
        exact ⟨(gridSet_lt e2).1, (gridSet_lt h).2⟩

theorem writeSquare_none {g : Grid} {col row : Nat} {sq : Square}
    (h : ¬(col + 1 < ColMax ∧ row + 1 < RowMax)) : writeSquare g col row sq = none := by
  cases hw : writeSquare g col row sq with
  | none => rfl
  | some g' => exact absurd (writeSquare_lt hw) h

theorem writeSquare_isSome (g : Grid) (col row : Nat) (sq : Square)
    (hc : col + 1 < ColMax) (hr : row + 1 < RowMax) :
    ∃ g', writeSquare g col row sq = some g' := by
  obtain ⟨g1, e1⟩ := gridSet_isSome g col row "pillarNum" sq.pillarNumTop
    (by omega) (by omega)
  obtain ⟨g2, e2⟩ := gridSet_isSome g1 (col + 1) row "pillarNum"
    sq.pillarNumRight hc (by omega)
  obtain ⟨g3, e3⟩ := gridSet_isSome g2 col (row + 1) "pillarNum"
    sq.pillarNumLeft (by omega) hr
  obtain ⟨g4, e4⟩ := gridSet_isSome g3 (col + 1) (row + 1) "pillarNum"
    sq.pillarNumBottom hc hr
  refine ⟨g4, ?_⟩
  unfold writeSquare
  rw [e1, Option.some_bind, e2, Option.some_bind, e3, Option.some_bind, e4]

theorem writeSquare_frame {g : Grid} {col row : Nat} {sq : Square} {g' : Grid}
    (h : writeSquare g col row sq = some g') (c r : Nat)
    (hne : (c ≠ col ∧ c ≠ col + 1) ∨ (r ≠ row ∧ r ≠ row + 1)) : g' c r = g c r := by
  unfold writeSquare at h
  cases e1 : gridSet g col row "pillarNum" sq.pillarNumTop with
  | none => rw [e1, Option.none_bind] at h; cases h
  | some g1 =>
    rw [e1, Option.some_bind] at h
    cases e2 : gridSet g1 (col + 1) row "pillarNum" sq.pillarNumRight with
    | none => rw [e2, Option.none_bind] at h; cases h
    | some g2 =>
      rw [e2, Option.some_bind] at h
      cases e3 : gridSet g2 col (row + 1) "pillarNum" sq.pillarNumLeft with
      | none => rw [e3, Option.none_bind] at h; cases h
      | some g3 =>
        rw [e3, Option.some_bind] at h
        rcases hne with ⟨h1, h2⟩ | ⟨h1, h2⟩ <;>
          rw [gridSet_other h (by omega), gridSet_other e3 (by omega),
            gridSet_other e2 (by omega), gridSet_other e1 (by omega)]

theorem writeSquare_cell {g : Grid} {col row : Nat} {sq : Square} {g' : Grid}
    (h : writeSquare g col row sq = some g') (dc dr : Nat) (hdc : dc ≤ 1) (hdr : dr ≤ 1) :
    g' (col + dc) (row + dr)
      = attrSet (g (col + dc) (row + dr)) "pillarNum" (corner sq dc dr) := by
  unfold writeSquare at h
  cases e1 : gridSet g col row "pillarNum" sq.pillarNumTop with
  | none => rw [e1, Option.none_bind] at h; cases h
  | some g1 =>
    rw [e1, Option.some_bind] at h
    cases e2 : gridSet g1 (col + 1) row "pillarNum" sq.pillarNumRight with
    | none => rw [e2, Option.none_bind] at h; cases h
    | some g2 =>
      rw [e2, Option.some_bind] at h
      cases e3 : gridSet g2 col (row + 1) "pillarNum" sq.pillarNumLeft with
      | none => rw [e3, Option.none_bind] at h; cases h
      | some g3 =>
        rw [e3, Option.some_bind] at h
        have hdc1 : dc = 0 ∨ dc = 1 := by omega
        have hdr1 : dr = 0 ∨ dr = 1 := by omega
        rcases hdc1 with rfl | rfl <;> rcases hdr1 with rfl | rfl
        · rw [gridSet_other h (by omega), gridSet_other e3 (by omega),
            gridSet_other e2 (by omega)]
          simp only [Nat.add_zero]
          rw [gridSet_self e1]
          simp [corner]
        · rw [gridSet_other h (by omega)]
          simp only [Nat.add_zero]
          rw [gridSet_self e3, gridSet_other e2 (by omega), gridSet_other e1 (by omega)]
          simp [corner]
        · rw [gridSet_other h (by omega), gridSet_other e3 (by omega)]
          simp only [Nat.add_zero]
          rw [gridSet_self e2, gridSet_other e1 (by omega)]
          simp [corner]
        · rw [gridSet_self h, gridSet_other e3 (by omega), gridSet_other e2 (by omega),
            gridSet_other e1 (by omega)]
          simp [corner]

/-! ### Lemmas about 16-bit values of a stream -/

theorem val16_zero (b0 b1 : Nat) (rest : List Nat) :
    val16 (b0 :: b1 :: rest) 0 = b0 + 256 * b1 := by
  simp [val16]

theorem val16_succ (b0 b1 : Nat) (rest : List Nat) (t : Nat) :
    val16 (b0 :: b1 :: rest) (t + 1) = val16 rest t := by
  unfold val16
  rw [show 2 * (t + 1) = 2 * t + 1 + 1 by omega]
  simp [List.getD_cons_succ]

theorem val16_nil (t : Nat) : val16 [] t = 0 := by
  simp [val16]

theorem val16_drop (s : List Nat) (m t : Nat) :
    val16 (s.drop (2 * m)) t = val16 s (m + t) := by
  induction m generalizing s with
  | zero => simp
  | succ m ih =>
    cases s with
    | nil => simp [val16]
    | cons b0 s' =>
      cases s' with
      | nil =>
        rw [List.drop_eq_nil_of_le (by simp; omega), val16_nil]
        unfold val16
        rw [List.getD_eq_default, List.getD_eq_default] <;> simp <;> omega
      | cons b1 s'' =>
        rw [show 2 * (m + 1) = 2 * m + 1 + 1 by omega]
        rw [List.drop_succ_cons, List.drop_succ_cons]
        rw [ih s'', show m + 1 + t = (m + t) + 1 by omega, val16_succ]

/-! ### Claim C5: the pillar rectangle formula -/

theorem imageRect_of_le (x0 y0 x1 y1 : Int) (hx : x0 ≤ x1) (hy : y0 ≤ y1) :
    imageRect x0 y0 x1 y1 = ⟨x0, y0, x1, y1⟩ := by
  unfold imageRect
  simp only [if_pos hx, if_pos hy]

theorem GetPillarRect_eq (col row mapWidth pillarHeight : Int) (h : 0 ≤ pillarHeight) :
    GetPillarRect col row mapWidth pillarHeight =
      ⟨Int.tdiv mapWidth 2 - BlockWidth - row * BlockWidth + col * BlockWidth,
       row * Int.tdiv BlockHeight 2 + col * Int.tdiv BlockHeight 2,
       Int.tdiv mapWidth 2 - BlockWidth - row * BlockWidth + col * BlockWidth + PillarWidth,
       row * Int.tdiv BlockHeight 2 + col * Int.tdiv BlockHeight 2 + pillarHeight⟩ := by
  unfold GetPillarRect
  rw [imageRect_of_le]
  · unfold PillarWidth
    omega
  · omega

/-- Claim C5: `GetPillarRect(col, row, mapWidth, pillarHeight)` returns the
rectangle with `minX = mapWidth/2 - blockWidth - row*blockWidth +
col*blockWidth`, `minY = row*(blockHeight/2) + col*(blockHeight/2)`,
`maxX = minX + pillarWidth`, `maxY = minY + pillarHeight`; incrementing the
col shifts minX by exactly `+blockWidth` and incrementing the row shifts
minX by exactly `-blockWidth`. -/
theorem dunmini_C5 (col row mapWidth pillarHeight : Int) (h : 0 ≤ pillarHeight) :
    (GetPillarRect col row mapWidth pillarHeight).minX
        = Int.tdiv mapWidth 2 - BlockWidth - row * BlockWidth + col * BlockWidth ∧
    (GetPillarRect col row mapWidth pillarHeight).minY
        = row * Int.tdiv BlockHeight 2 + col * Int.tdiv BlockHeight 2 ∧
    (GetPillarRect col row mapWidth pillarHeight).maxX
        = (GetPillarRect col row mapWidth pillarHeight).minX + PillarWidth ∧
    (GetPillarRect col row mapWidth pillarHeight).maxY
        = (GetPillarRect col row mapWidth pillarHeight).minY + pillarHeight ∧
    (GetPillarRect (col + 1) row mapWidth pillarHeight).minX
        = (GetPillarRect col row mapWidth pillarHeight).minX + BlockWidth ∧
    (GetPillarRect col (row + 1) mapWidth pillarHeight).minX
        = (GetPillarRect col row mapWidth pillarHeight).minX - BlockWidth := by
  rw [GetPillarRect_eq col row mapWidth pillarHeight h,
    GetPillarRect_eq (col + 1) row mapWidth pillarHeight h,
    GetPillarRect_eq col (row + 1) mapWidth pillarHeight h]
  refine ⟨rfl, rfl, rfl, rfl, by ring, by ring⟩

/-- Claim C5 witness: the theorem instantiated at a concrete input. -/
theorem dunmini_C5_witness :
    (GetPillarRect 3 5 640 160).minX
        = Int.tdiv 640 2 - BlockWidth - 5 * BlockWidth + 3 * BlockWidth ∧
    (GetPillarRect 3 5 640 160).minY
        = 5 * Int.tdiv BlockHeight 2 + 3 * Int.tdiv BlockHeight 2 ∧
    (GetPillarRect 3 5 640 160).maxX = (GetPillarRect 3 5 640 160).minX + PillarWidth ∧
    (GetPillarRect 3 5 640 160).maxY = (GetPillarRect 3 5 640 160).minY + 160 ∧
    (GetPillarRect (3 + 1) 5 640 160).minX = (GetPillarRect 3 5 640 160).minX + BlockWidth ∧
    (GetPillarRect 3 (5 + 1) 640 160).minX = (GetPillarRect 3 5 640 160).minX - BlockWidth :=
  dunmini_C5 3 5 640 160 (by norm_num)

/-! ### Claim C7: level-name resolution -/

/-- Claim C7: level-name resolution maps the five recognized directories to
their short level codes and returns the `invalid dunDir` error with no level
name for every other directory component. -/
theorem dun_C7 :
    (∀ p, pathDir p = "levels/l1data/" → GetLevelName p = .ok "l1") ∧
    (∀ p, pathDir p = "levels/l2data/" → GetLevelName p = .ok "l2") ∧
    (∀ p, pathDir p = "levels/l3data/" → GetLevelName p = .ok "l3") ∧
    (∀ p, pathDir p = "levels/l4data/" → GetLevelName p = .ok "l4") ∧
    (∀ p, pathDir p = "levels/towndata/" → GetLevelName p = .ok "town") ∧
    (∀ p, pathDir p ≠ "levels/l1data/" → pathDir p ≠ "levels/l2data/" →
      pathDir p ≠ "levels/l3data/" → pathDir p ≠ "levels/l4data/" →
      pathDir p ≠ "levels/towndata/" →
      GetLevelName p = .error ("invalid dunDir (" ++ pathDir p ++ ").")) := by
  refine ⟨?_, ?_, ?_, ?_, ?_, ?_⟩
  · intro p h
    unfold GetLevelName
    rw [h]
    rfl
  · intro p h
    unfold GetLevelName
    rw [h]
    rfl
  · intro p h
    unfold GetLevelName
    rw [h]
    rfl
  · intro p h
    unfold GetLevelName
    rw [h]
    rfl
  · intro p h
    unfold GetLevelName
    rw [h]
    rfl
  · intro p h1 h2 h3 h4 h5
    unfold GetLevelName
    rw [if_neg h1, if_neg h2, if_neg h3, if_neg h4, if_neg h5]

/-- Claim C7 witness: `"levels/l2data/foo.dun"` resolves to `"l2"`, and a
path under an unrecognized directory fails with the error. -/
theorem dun_C7_witness :
    GetLevelName "levels/l2data/foo.dun" = .ok "l2" ∧
    GetLevelName "levels/unknown/foo.dun"
      = .error ("invalid dunDir (" ++ pathDir "levels/unknown/foo.dun" ++ ").") :=
  ⟨dun_C7.2.1 "levels/l2data/foo.dun" (by decide),
   dun_C7.2.2.2.2.2 "levels/unknown/foo.dun" (by decide) (by decide) (by decide)
     (by decide) (by decide)⟩

/-! ### Claims C1 and C2: counterexamples -/

/-- Claim C1 counterexample: with an empty square table and one non-zero
square-id-plus-1 value (1, i.e. square index 0, out of range for the empty
table), the full-stream parse ends in the runtime index-out-of-range panic
of the unchecked `squares[squareNumPlus1-1]` access — not in a returned
`FormatError`. -/
theorem dun_C1_counterexample :
    Parse [] 0 0 emptyGrid [1, 0, 1, 0, 1, 0] = .error (.crash .squareIdx) := by
  rfl

/-- Claim C2 counterexample: the fixed-size variant consumes the square-id
plane column-major, not row-major.  With `colCount = rowCount = 2` and the
single non-zero value at flat index `k = 1`, the claim's formula predicts
block origin `(2*(k mod 2), 2*(k div 2)) = (2, 0)`, but the parse populates
the block at `(0, 2)` and leaves `(2, 0)` empty. -/
theorem dunmini_C2_counterexample :
    resOk (ParseMini [⟨7, 8, 9, 10⟩] emptyGrid [0, 1, 0, 0] 2 2) = true ∧
    attrGet (okGrid (ParseMini [⟨7, 8, 9, 10⟩] emptyGrid [0, 1, 0, 0] 2 2) 0 2) "pillarNum"
      = some 7 ∧
    attrGet (okGrid (ParseMini [⟨7, 8, 9, 10⟩] emptyGrid [0, 1, 0, 0] 2 2) 2 0) "pillarNum"
      = none := by
  refine ⟨rfl, rfl, rfl⟩

/-! ### Inversion lemmas for the square plane -/

theorem read16_ok {s : List Nat} {v : Nat} {s1 : List Nat} (h : read16 s = .ok (v, s1)) :
    2 ≤ s.length ∧ s1 = s.drop 2 ∧ v = val16 s 0 := by
  match s with
  | [] => simp [read16] at h
  | [b] => simp [read16] at h
  | b0 :: b1 :: rest =>
    simp only [read16, Except.ok.injEq, Prod.mk.injEq] at h
    obtain ⟨rfl, rfl⟩ := h
    refine ⟨by simp, by simp, ?_⟩
    rw [val16_zero]

theorem parseSqRow_ok {squares : List Square} {g : Grid} {s : List Nat} {col row j : Nat}
    {g' : Grid} {s' : List Nat}
    (h : parseSqRow squares g s col row j = .ok (g', s')) :
    2 * j ≤ s.length ∧ s' = s.drop (2 * j) ∧
    (∀ c r, c < col ∨ col + 2 * j ≤ c ∨ (r ≠ row ∧ r ≠ row + 1) → g' c r = g c r) ∧
    (∀ t, t < j → val16 s t = 0 →
      ∀ dc dr, dc ≤ 1 → dr ≤ 1 →
        g' (col + 2 * t + dc) (row + dr) = g (col + 2 * t + dc) (row + dr)) ∧
    (∀ t, t < j → val16 s t ≠ 0 →
      ∃ sq, squares[val16 s t - 1]? = some sq ∧
        ∀ dc dr, dc ≤ 1 → dr ≤ 1 →
          g' (col + 2 * t + dc) (row + dr)
            = attrSet (g (col + 2 * t + dc) (row + dr)) "pillarNum" (corner sq dc dr)) := by
  induction j generalizing g s col g' s' with
  | zero =>
    simp only [parseSqRow, Except.ok.injEq, Prod.mk.injEq] at h
    obtain ⟨rfl, rfl⟩ := h
    refine ⟨by omega, by simp, fun c r _ => rfl, fun t ht => by omega, fun t ht => by omega⟩
  | succ j ih =>
    simp only [parseSqRow] at h
    cases hr : read16 s with
    | error e => rw [hr] at h; cases h
    | ok vs =>
      obtain ⟨v, s1⟩ := vs
      simp only [hr] at h
      obtain ⟨hlen2, hs1, hv0⟩ := read16_ok hr
      by_cases hv : v = 0
      · rw [if_neg (show ¬(v ≠ 0) by omega)] at h
        obtain ⟨ihlen, ihdrop, ihframe, ihzero, ihnz⟩ := ih h
        have hslen : s1.length = s.length - 2 := by rw [hs1]; simp
        refine ⟨by omega, ?_, ?_, ?_, ?_⟩
        · rw [ihdrop, hs1, List.drop_drop]
          congr 1
          omega
        · intro c r hcr
          exact ihframe c r (by omega)
        · intro t ht htv dc dr hdc hdr
          cases t with
          | zero => exact ihframe _ _ (by omega)
          | succ t' =>
            have hv16 : val16 s1 t' = 0 := by
              rw [hs1, show (2 : Nat) = 2 * 1 by omega, val16_drop]
              rw [show 1 + t' = t' + 1 by omega]
              exact htv
            have hc : col + 2 * (t' + 1) + dc = col + 2 + 2 * t' + dc := by omega
            rw [hc]
            exact ihzero t' (by omega) hv16 dc dr hdc hdr
        · intro t ht htv
          cases t with
          | zero =>
            exact absurd (show val16 s 0 = 0 by omega) htv
          | succ t' =>
            have hv16 : val16 s1 t' = val16 s (t' + 1) := by
              rw [hs1, show (2 : Nat) = 2 * 1 by omega, val16_drop]
              congr 1
              omega
            obtain ⟨sq, hsq, hcell⟩ := ihnz t' (by omega) (by rw [hv16]; exact htv)
            refine ⟨sq, by rw [← hv16]; exact hsq, ?_⟩
            intro dc' dr' hdc' hdr'
            have hc : col + 2 * (t' + 1) + dc' = col + 2 + 2 * t' + dc' := by omega
            rw [hc]
            exact hcell dc' dr' hdc' hdr'
      · rw [if_pos hv] at h
        cases hsq : squares[v - 1]? with
        | none => simp [hsq] at h
        | some sq =>
          simp only [hsq] at h
          cases hw : writeSquare g col row sq with
          | none => simp [hw] at h
          | some g1 =>
            simp only [hw] at h
            obtain ⟨ihlen, ihdrop, ihframe, ihzero, ihnz⟩ := ih h
            have hslen : s1.length = s.length - 2 := by rw [hs1]; simp
            refine ⟨by omega, ?_, ?_, ?_, ?_⟩
            · rw [ihdrop, hs1, List.drop_drop]
              congr 1
              omega
            · intro c r hcr
              rw [ihframe c r (by omega)]
              refine writeSquare_frame hw c r ?_
              rcases hcr with hcr | hcr | hcr
              · left; omega
              · left; omega
              · right; exact hcr
            · intro t ht htv dc dr hdc hdr
              cases t with
              | zero =>
                exact absurd htv (show val16 s 0 ≠ 0 by omega)
              | succ t' =>
                have hv16 : val16 s1 t' = val16 s (t' + 1) := by
                  rw [hs1, show (2 : Nat) = 2 * 1 by omega, val16_drop]
                  congr 1
                  omega
                have hc : col + 2 * (t' + 1) + dc = col + 2 + 2 * t' + dc := by omega
                rw [hc, ihzero t' (by omega) (by rw [hv16]; exact htv) dc dr hdc hdr]
                exact writeSquare_frame hw _ _ (by left; omega)
            · intro t ht htv
              cases t with
              | zero =>
                have hvv : val16 s 0 = v := hv0.symm
                refine ⟨sq, by rw [hvv]; exact hsq, ?_⟩
                intro dc' dr' hdc' hdr'
                have h1 : g' (col + 2 * 0 + dc') (row + dr') = g1 (col + 2 * 0 + dc') (row + dr') := by
                  refine ihframe _ _ ?_
                  left
                  omega
                rw [h1]
                have h2 : col + 2 * 0 + dc' = col + dc' := by omega
                rw [h2]
                exact writeSquare_cell hw dc' dr' hdc' hdr'
              | succ t' =>
                have hv16 : val16 s1 t' = val16 s (t' + 1) := by
                  rw [hs1, show (2 : Nat) = 2 * 1 by omega, val16_drop]
                  congr 1
                  omega
                obtain ⟨sq', hsq', hcell⟩ := ihnz t' (by omega) (by rw [hv16]; exact htv)
                refine ⟨sq', by rw [← hv16]; exact hsq', ?_⟩
                intro dc' dr' hdc' hdr'
                have hc : col + 2 * (t' + 1) + dc' = col + 2 + 2 * t' + dc' := by omega
                rw [hc, hcell dc' dr' hdc' hdr']
                congr 1
                exact writeSquare_frame hw _ _ (by left; omega)

theorem parseSqRows_ok {squares : List Square} {qw colStart : Nat} {g : Grid} {s : List Nat}
    {row i : Nat} {g' : Grid} {s' : List Nat}
    (h : parseSqRows squares qw colStart g s row i = .ok (g', s')) :
    2 * (qw * i) ≤ s.length ∧ s' = s.drop (2 * (qw * i)) ∧
    (∀ c r, c < colStart ∨ colStart + 2 * qw ≤ c ∨ r < row ∨ row + 2 * i ≤ r →
      g' c r = g c r) ∧
    (∀ k, k < qw * i → val16 s k = 0 →
      ∀ dc dr, dc ≤ 1 → dr ≤ 1 →
        g' (colStart + 2 * (k % qw) + dc) (row + 2 * (k / qw) + dr)
          = g (colStart + 2 * (k % qw) + dc) (row + 2 * (k / qw) + dr)) ∧
    (∀ k, k < qw * i → val16 s k ≠ 0 →
      ∃ sq, squares[val16 s k - 1]? = some sq ∧
        ∀ dc dr, dc ≤ 1 → dr ≤ 1 →
          g' (colStart + 2 * (k % qw) + dc) (row + 2 * (k / qw) + dr)
            = attrSet (g (colStart + 2 * (k % qw) + dc) (row + 2 * (k / qw) + dr))
                "pillarNum" (corner sq dc dr)) := by
  induction i generalizing g s row g' s' with
  | zero =>
    simp only [parseSqRows, Except.ok.injEq, Prod.mk.injEq] at h
    obtain ⟨rfl, rfl⟩ := h
    refine ⟨by simp, by simp, fun c r _ => rfl, fun k hk => by simp at hk, fun k hk => by simp at hk⟩
  | succ i ih =>
    simp only [parseSqRows] at h
    cases hrow : parseSqRow squares g s colStart row qw with
    | error e => rw [hrow] at h; cases h
    | ok gs =>
      obtain ⟨g1, s1⟩ := gs
      simp only [hrow] at h
      obtain ⟨rlen, rdrop, rframe, rzero, rnz⟩ := parseSqRow_ok hrow
      obtain ⟨ilen, idrop, iframe, izero, inz⟩ := ih h
      have hs1len : s1.length = s.length - 2 * qw := by rw [rdrop]; simp
      have hmul : qw * (i + 1) = qw * i + qw := by ring
      refine ⟨by omega, ?_, ?_, ?_, ?_⟩
      · rw [idrop, rdrop, List.drop_drop]
        congr 1
        omega
      · intro c r hcr
        rw [iframe c r (by omega)]
        exact rframe c r (by omega)
      · intro k hk hkv dc dr hdc hdr
        by_cases hklt : k < qw
        · have hmod : k % qw = k := Nat.mod_eq_of_lt hklt
          have hdiv : k / qw = 0 := Nat.div_eq_of_lt hklt
          rw [hmod, hdiv]
          have hcell : row + 2 * 0 + dr = row + dr := by omega
          rw [hcell]
          have h1 : g' (colStart + 2 * k + dc) (row + dr)
              = g1 (colStart + 2 * k + dc) (row + dr) :=
            iframe _ _ (by omega)
          rw [h1]
          exact rzero k hklt hkv dc dr hdc hdr
        · have hqw : 0 < qw := by
            rcases Nat.eq_zero_or_pos qw with h0 | h0
            · subst h0; simp at hk
            · exact h0
          have hmod : k % qw = (k - qw) % qw := Nat.mod_eq_sub_mod (by omega)
          have hdiv : k / qw = (k - qw) / qw + 1 := Nat.div_eq_sub_div hqw (by omega)
          have hv1 : val16 s1 (k - qw) = val16 s k := by
            rw [rdrop, show 2 * qw = 2 * qw by rfl, val16_drop]
            congr 1
            omega
          have hklt' : k - qw < qw * i := by omega
          have hcell : ∀ x : Nat, row + 2 * ((k - qw) / qw + 1) + x
              = row + 2 + 2 * ((k - qw) / qw) + x := by intro x; omega
          rw [hmod, hdiv, hcell]
          rw [izero (k - qw) hklt' (by rw [hv1]; exact hkv) dc dr hdc hdr]
          exact rframe _ _ (by omega)
      · intro k hk hkv
        by_cases hklt : k < qw
        · have hmod : k % qw = k := Nat.mod_eq_of_lt hklt
          have hdiv : k / qw = 0 := Nat.div_eq_of_lt hklt
          obtain ⟨sq, hsq, hcell⟩ := rnz k hklt hkv
          refine ⟨sq, hsq, ?_⟩
          intro dc dr hdc hdr
          rw [hmod, hdiv]
          have hc : row + 2 * 0 + dr = row + dr := by omega
          rw [hc]
          have h1 : g' (colStart + 2 * k + dc) (row + dr)
              = g1 (colStart + 2 * k + dc) (row + dr) :=
            iframe _ _ (by omega)
          rw [h1]
          exact hcell dc dr hdc hdr
        · have hqw : 0 < qw := by
            rcases Nat.eq_zero_or_pos qw with h0 | h0
            · subst h0; simp at hk
            · exact h0
          have hmod : k % qw = (k - qw) % qw := Nat.mod_eq_sub_mod (by omega)
          have hdiv : k / qw = (k - qw) / qw + 1 := Nat.div_eq_sub_div hqw (by omega)
          have hv1 : val16 s1 (k - qw) = val16 s k := by
            rw [rdrop, val16_drop]
            congr 1
            omega
          have hklt' : k - qw < qw * i := by omega
          obtain ⟨sq, hsq, hcell⟩ := inz (k - qw) hklt' (by rw [hv1]; exact hkv)
          refine ⟨sq, by rw [← hv1]; exact hsq, ?_⟩
          intro dc dr hdc hdr
          have hcr : ∀ x : Nat, row + 2 * ((k - qw) / qw + 1) + x
              = row + 2 + 2 * ((k - qw) / qw) + x := by intro x; omega
          rw [hmod, hdiv, hcr]
          rw [hcell dc dr hdc hdr]
          congr 1
          exact rframe _ _ (by omega)

/-! ### Lemmas for the trailing planes -/

theorem read16_of_len {s : List Nat} (h : 2 ≤ s.length) :
    read16 s = .ok (val16 s 0, s.drop 2) := by
  match s with
  | [] => simp at h
  | [b] => simp at h
  | b0 :: b1 :: rest => rw [val16_zero]; rfl

theorem planeRow_ok {key : String} {g : Grid} {s : List Nat} {col row j : Nat}
    {g' : Grid} {s' : List Nat}
    (h : planeRow key g s col row j = .ok (g', s')) :
    2 * j ≤ s.length ∧ s' = s.drop (2 * j) ∧
    (∀ c r, c < col ∨ col + j ≤ c ∨ r ≠ row → g' c r = g c r) ∧
    (∀ key', key' ≠ key → ∀ c r, attrGet (g' c r) key' = attrGet (g c r) key') := by
  induction j generalizing g s col g' s' with
  | zero =>
    simp only [planeRow, Except.ok.injEq, Prod.mk.injEq] at h
    obtain ⟨rfl, rfl⟩ := h
    exact ⟨by omega, by simp, fun c r _ => rfl, fun key' _ c r => rfl⟩
  | succ j ih =>
    simp only [planeRow] at h
    cases hr : read16 s with
    | error e => rw [hr] at h; cases h
    | ok vs =>
      obtain ⟨v, s1⟩ := vs
      simp only [hr] at h
      obtain ⟨hlen2, hs1, _⟩ := read16_ok hr
      cases hgs : gridSet g col row key (v : Int) with
      | none => simp [hgs] at h
      | some g1 =>
        simp only [hgs] at h
        obtain ⟨ihlen, ihdrop, ihframe, ihpres⟩ := ih h
        have hslen : s1.length = s.length - 2 := by rw [hs1]; simp
        refine ⟨by omega, ?_, ?_, ?_⟩
        · rw [ihdrop, hs1, List.drop_drop]
          congr 1
          omega
        · intro c r hcr
          rw [ihframe c r (by omega)]
          exact gridSet_other hgs (by omega)
        · intro key' hk c r
          rw [ihpres key' hk c r]
          by_cases hc : c = col ∧ r = row
          · obtain ⟨rfl, rfl⟩ := hc
            rw [gridSet_self hgs]
            exact attrGet_attrSet_ne _ _ _ _ (Ne.symm hk)
          · rw [gridSet_other hgs hc]

theorem planeRows_ok {key : String} {w colStart : Nat} {g : Grid} {s : List Nat}
    {row i : Nat} {g' : Grid} {s' : List Nat}
    (h : planeRows key w colStart g s row i = .ok (g', s')) :
    2 * (w * i) ≤ s.length ∧ s' = s.drop (2 * (w * i)) ∧
    (∀ c r, c < colStart ∨ colStart + w ≤ c ∨ r < row ∨ row + i ≤ r → g' c r = g c r) ∧
    (∀ key', key' ≠ key → ∀ c r, attrGet (g' c r) key' = attrGet (g c r) key') := by
  induction i generalizing g s row g' s' with
  | zero =>
    simp only [planeRows, Except.ok.injEq, Prod.mk.injEq] at h
    obtain ⟨rfl, rfl⟩ := h
    exact ⟨by simp, by simp, fun c r _ => rfl, fun key' _ c r => rfl⟩
  | succ i ih =>
    simp only [planeRows] at h
    cases hrow : planeRow key g s colStart row w with
    | error e => rw [hrow] at h; cases h
    | ok gs =>
      obtain ⟨g1, s1⟩ := gs
      simp only [hrow] at h
      obtain ⟨rlen, rdrop, rframe, rpres⟩ := planeRow_ok hrow
      obtain ⟨ilen, idrop, iframe, ipres⟩ := ih h
      have hs1len : s1.length = s.length - 2 * w := by rw [rdrop]; simp
      have hmul : w * (i + 1) = w * i + w := by ring
      refine ⟨by omega, ?_, ?_, ?_⟩
      · rw [idrop, rdrop, List.drop_drop]
        congr 1
        omega
      · intro c r hcr
        rw [iframe c r (by omega)]
        exact rframe c r (by omega)
      · intro key' hk c r
        rw [ipres key' hk c r, rpres key' hk c r]

theorem planeRow_succeeds (key : String) (g : Grid) (s : List Nat) (col row j : Nat)
    (hlen : 2 * j ≤ s.length) (hb : col + j ≤ ColMax) (hrow : row < RowMax) :
    ∃ g', planeRow key g s col row j = .ok (g', s.drop (2 * j)) := by
  induction j generalizing g s col with
  | zero => exact ⟨g, by simp [planeRow]⟩
  | succ j ih =>
    have hr : read16 s = .ok (val16 s 0, s.drop 2) := read16_of_len (by omega)
    obtain ⟨g1, hgs⟩ := gridSet_isSome g col row key
      ((val16 s 0 : Nat) : Int) (by omega) hrow
    have hdlen : (s.drop 2).length = s.length - 2 := by simp
    obtain ⟨g', hrec⟩ := ih g1 (s.drop 2) (col + 1) (by omega) (by omega)
    rw [List.drop_drop] at hrec
    refine ⟨g', ?_⟩
    rw [show 2 * (j + 1) = 2 * j + 2 by omega]
    simp only [planeRow, hr, hgs, hrec]
    rw [Nat.add_comm 2 (2 * j)]

theorem planeRow_fails (key : String) (g : Grid) (s : List Nat) (col row j : Nat)
    (hlen : s.length < 2 * j) (hb : col + j ≤ ColMax) (hrow : row < RowMax) :
    ∃ e, planeRow key g s col row j = .error (.ioErr e) := by
  induction j generalizing g s col with
  | zero => omega
  | succ j ih =>
    by_cases hs2 : 2 ≤ s.length
    · have hr : read16 s = .ok (val16 s 0, s.drop 2) := read16_of_len hs2
      obtain ⟨g1, hgs⟩ := gridSet_isSome g col row key
        ((val16 s 0 : Nat) : Int) (by omega) hrow
      have hdlen : (s.drop 2).length = s.length - 2 := by simp
      obtain ⟨e, hrec⟩ := ih g1 (s.drop 2) (col + 1) (by omega) (by omega)
      refine ⟨e, ?_⟩
      simp only [planeRow, hr, hgs, hrec]
    · match s with
      | [] => exact ⟨.eof, by simp [planeRow, read16]⟩
      | [b] => exact ⟨.unexpectedEof, by simp [planeRow, read16]⟩
      | b0 :: b1 :: rest => simp at hs2

theorem planeRows_succeeds {key : String} (w colStart : Nat) (g : Grid) (s : List Nat)
    (row i : Nat) (hlen : 2 * (w * i) ≤ s.length) (hb : colStart + w ≤ ColMax)
    (hrow : row + i ≤ RowMax) :
    ∃ g', planeRows key w colStart g s row i = .ok (g', s.drop (2 * (w * i))) := by
  induction i generalizing g s row with
  | zero => exact ⟨g, by simp [planeRows]⟩
  | succ i ih =>
    have hmul : w * (i + 1) = w * i + w := by ring
    obtain ⟨g1, hrow1⟩ := planeRow_succeeds key g s colStart row w
      (by omega) hb (by omega)
    have hdlen : (s.drop (2 * w)).length = s.length - 2 * w := by simp
    obtain ⟨g', hrec⟩ := ih g1 (s.drop (2 * w)) (row + 1) (by omega) (by omega)
    rw [List.drop_drop] at hrec
    refine ⟨g', ?_⟩
    rw [show 2 * (w * (i + 1)) = 2 * (w * i) + 2 * w by ring]
    simp only [planeRows, hrow1, hrec]
    rw [Nat.add_comm (2 * w) (2 * (w * i))]

theorem planeRows_fails {key : String} (w colStart : Nat) (g : Grid) (s : List Nat)
    (row i : Nat) (hlen : s.length < 2 * (w * i)) (hb : colStart + w ≤ ColMax)
    (hrow : row + i ≤ RowMax) :
    ∃ e, planeRows key w colStart g s row i = .error (.ioErr e) := by
  induction i generalizing g s row with
  | zero => simp at hlen
  | succ i ih =>
    have hmul : w * (i + 1) = w * i + w := by ring
    by_cases hsw : 2 * w ≤ s.length
    · obtain ⟨g1, hrow1⟩ := planeRow_succeeds key g s colStart row w hsw hb (by omega)
      have hdlen : (s.drop (2 * w)).length = s.length - 2 * w := by simp
      obtain ⟨e, hrec⟩ := ih g1 (s.drop (2 * w)) (row + 1) (by omega) (by omega)
      refine ⟨e, ?_⟩
      simp only [planeRows, hrow1, hrec]
    · obtain ⟨e, hrow1⟩ := planeRow_fails key g s colStart row w (by omega) hb (by omega)
      refine ⟨e, ?_⟩
      simp only [planeRows, hrow1]

theorem parsePlane_ok_done {key : String} {g : Grid} {s : List Nat} {cs rs w h : Nat}
    {g2 : Grid} (hst : parsePlane key g s cs rs w h = .ok (.done g2)) : g2 = g := by
  unfold parsePlane at hst
  by_cases hwh : w = 0 ∨ h = 0
  · rw [if_pos hwh] at hst
    simp at hst
  · rw [if_neg hwh] at hst
    by_cases hs : s = []
    · rw [if_pos hs] at hst
      simp only [Except.ok.injEq, PlaneStep.done.injEq] at hst
      exact hst.symm
    · rw [if_neg hs] at hst
      cases hpr : planeRows key w cs g s rs h with
      | error e => simp [hpr] at hst
      | ok gs1 =>
        obtain ⟨g1, s1⟩ := gs1
        simp [hpr] at hst

theorem parsePlane_ok_next {key : String} {g : Grid} {s : List Nat} {cs rs w h : Nat}
    {g2 : Grid} {s2 : List Nat}
    (hst : parsePlane key g s cs rs w h = .ok (.next g2 s2)) :
    (g2 = g ∧ s2 = s) ∨ planeRows key w cs g s rs h = .ok (g2, s2) := by
  unfold parsePlane at hst
  by_cases hwh : w = 0 ∨ h = 0
  · rw [if_pos hwh] at hst
    simp only [Except.ok.injEq, PlaneStep.next.injEq] at hst
    exact Or.inl ⟨hst.1.symm, hst.2.symm⟩
  · rw [if_neg hwh] at hst
    by_cases hs : s = []
    · rw [if_pos hs] at hst
      simp at hst
    · rw [if_neg hs] at hst
      cases hpr : planeRows key w cs g s rs h with
      | error e => simp [hpr] at hst
      | ok gs1 =>
        obtain ⟨g1, s1⟩ := gs1
        simp only [hpr, Except.ok.injEq, PlaneStep.next.injEq] at hst
        obtain ⟨hg, hs'⟩ := hst
        subst hg
        subst hs'
        exact Or.inr rfl

/-- The two properties of a completed plane step that later claims need: it
only touches the `colStart ≤ c < colStart + w`, `rowStart ≤ r < rowStart + h`
region, and it preserves every attribute other than its own key. -/
theorem parsePlane_ok_props {key : String} {g : Grid} {s : List Nat} {cs rs w h : Nat}
    {st : PlaneStep} (hst : parsePlane key g s cs rs w h = .ok st) :
    ∃ g2, (st = .done g2 ∨ ∃ s2, st = .next g2 s2) ∧
      (∀ c r, c < cs ∨ cs + w ≤ c ∨ r < rs ∨ rs + h ≤ r → g2 c r = g c r) ∧
      (∀ key', key' ≠ key → ∀ c r, attrGet (g2 c r) key' = attrGet (g c r) key') := by
  cases st with
  | done g2 =>
    have hg := parsePlane_ok_done hst
    subst hg
    exact ⟨g2, Or.inl rfl, fun c r _ => rfl, fun key' _ c r => rfl⟩
  | next g2 s2 =>
    rcases parsePlane_ok_next hst with ⟨hg, _⟩ | hpr
    · subst hg
      exact ⟨g2, Or.inr ⟨s2, rfl⟩, fun c r _ => rfl, fun key' _ c r => rfl⟩
    · obtain ⟨_, _, hframe, hpres⟩ := planeRows_ok hpr
      exact ⟨g2, Or.inr ⟨s2, rfl⟩, hframe, hpres⟩

/-- Inversion for the four-plane chain: a successful run only touches the
`2*qw × 2*qh` region and never changes any `pillarNum` attribute. -/
theorem parsePlanes_ok {g : Grid} {s : List Nat} {cs rs qw qh : Nat} {g' : Grid}
    (h : parsePlanes g s cs rs qw qh = .ok g') :
    (∀ c r, c < cs ∨ cs + 2 * qw ≤ c ∨ r < rs ∨ rs + 2 * qh ≤ r → g' c r = g c r) ∧
    (∀ c r, attrGet (g' c r) "pillarNum" = attrGet (g c r) "pillarNum") := by
  unfold parsePlanes at h
  cases h1 : parsePlane "unknown" g s cs rs (2 * qw) (2 * qh) with
  | error e => simp [h1] at h
  | ok st1 =>
    simp only [h1] at h
    obtain ⟨g2, hshape1, hframe1, hpres1⟩ := parsePlane_ok_props h1
    rcases hshape1 with rfl | ⟨s3, rfl⟩
    · simp only [Except.ok.injEq] at h
      subst h
      exact ⟨hframe1, fun c r => hpres1 "pillarNum" (by decide) c r⟩
    · cases h2 : parsePlane "dunMonsterID" g2 s3 cs rs (2 * qw) (2 * qh) with
      | error e => simp [h2] at h
      | ok st2 =>
        simp only [h2] at h
        obtain ⟨g3, hshape2, hframe2, hpres2⟩ := parsePlane_ok_props h2
        rcases hshape2 with rfl | ⟨s4, rfl⟩
        · simp only [Except.ok.injEq] at h
          subst h
          refine ⟨fun c r hcr => ?_, fun c r => ?_⟩
          · rw [hframe2 c r hcr, hframe1 c r hcr]
          · rw [hpres2 "pillarNum" (by decide) c r, hpres1 "pillarNum" (by decide) c r]
        · cases h3 : parsePlane "dunObjectID" g3 s4 cs rs (2 * qw) (2 * qh) with
          | error e => simp [h3] at h
          | ok st3 =>
            simp only [h3] at h
            obtain ⟨g4, hshape3, hframe3, hpres3⟩ := parsePlane_ok_props h3
            rcases hshape3 with rfl | ⟨s5, rfl⟩
            · simp only [Except.ok.injEq] at h
              subst h
              refine ⟨fun c r hcr => ?_, fun c r => ?_⟩
              · rw [hframe3 c r hcr, hframe2 c r hcr, hframe1 c r hcr]
              · rw [hpres3 "pillarNum" (by decide) c r, hpres2 "pillarNum" (by decide) c r,
                  hpres1 "pillarNum" (by decide) c r]
            · cases h4 : parsePlane "transparency" g4 s5 cs rs (2 * qw) (2 * qh) with
              | error e => simp [h4] at h
              | ok st4 =>
                simp only [h4] at h
                obtain ⟨g5, hshape4, hframe4, hpres4⟩ := parsePlane_ok_props h4
                rcases hshape4 with rfl | ⟨s6, rfl⟩
                · simp only [Except.ok.injEq] at h
                  subst h
                  refine ⟨fun c r hcr => ?_, fun c r => ?_⟩
                  · rw [hframe4 c r hcr, hframe3 c r hcr, hframe2 c r hcr, hframe1 c r hcr]
                  · rw [hpres4 "pillarNum" (by decide) c r, hpres3 "pillarNum" (by decide) c r,
                      hpres2 "pillarNum" (by decide) c r, hpres1 "pillarNum" (by decide) c r]
                · simp only [Except.ok.injEq] at h
                  subst h
                  refine ⟨fun c r hcr => ?_, fun c r => ?_⟩
                  · rw [hframe4 c r hcr, hframe3 c r hcr, hframe2 c r hcr, hframe1 c r hcr]
                  · rw [hpres4 "pillarNum" (by decide) c r, hpres3 "pillarNum" (by decide) c r,
                      hpres2 "pillarNum" (by decide) c r, hpres1 "pillarNum" (by decide) c r]

theorem Parse_ok_elim {squares : List Square} {colStart rowStart : Nat} {g0 : Grid}
    {s : List Nat} {g : Grid} {qw qh : Nat} {s1 : List Nat}
    (hq : readHeader s = .ok (qw, qh, s1))
    (h : Parse squares colStart rowStart g0 s = .ok g) :
    ∃ g1 s2, parseSqRows squares qw colStart g0 s1 rowStart qh = .ok (g1, s2) ∧
      parsePlanes g1 s2 colStart rowStart qw qh = .ok g := by
  unfold Parse at h
  simp only [hq] at h
  cases hsq : parseSqRows squares qw colStart g0 s1 rowStart qh with
  | error e => simp [hsq] at h
  | ok gs =>
    obtain ⟨g1, s2⟩ := gs
    simp only [hsq] at h
    exact ⟨g1, s2, rfl, h⟩

/-- Claim C10: a successful full-stream parse started from a fresh grid never
adds attributes outside the rectangle `colStart ≤ col < colStart + 2*quadWidth`,
`rowStart ≤ row < rowStart + 2*quadHeight`: every cell outside it is still the
empty attribute map. -/
theorem dun_C10 {squares : List Square} {colStart rowStart : Nat} {s : List Nat}
    {g : Grid} {qw qh : Nat} {s1 : List Nat}
    (hq : readHeader s = .ok (qw, qh, s1))
    (h : Parse squares colStart rowStart emptyGrid s = .ok g) :
    ∀ c r, c < colStart ∨ colStart + 2 * qw ≤ c ∨ r < rowStart ∨ rowStart + 2 * qh ≤ r →
      g c r = [] := by
  obtain ⟨g1, s2, hsq, hpl⟩ := Parse_ok_elim hq h
  obtain ⟨_, _, sframe, _, _⟩ := parseSqRows_ok hsq
  obtain ⟨pframe, _⟩ := parsePlanes_ok hpl
  intro c r hcr
  rw [pframe c r hcr, sframe c r hcr]
  rfl

/-- Claim C10 witness: a concrete successful parse (1×1 square plane, EOF at
the start of the `unknown` plane) applied at a cell outside the rectangle. -/
theorem dun_C10_witness :
    okGrid (Parse [] 0 0 emptyGrid [1, 0, 1, 0, 0, 0]) 50 60 = [] :=
  @dun_C10 [] 0 0 [1, 0, 1, 0, 0, 0] (okGrid (Parse [] 0 0 emptyGrid [1, 0, 1, 0, 0, 0]))
    1 1 [0, 0] rfl rfl 50 60 (by omega)

/-! ### Inversion lemmas for the fixed-size variant -/

theorem getElem?_lt_length {buf : List Nat} {k : Nat} {v : Nat} (h : buf[k]? = some v) :
    k < buf.length := by
  by_contra hk
  rw [List.getElem?_eq_none (by omega)] at h
  cases h

theorem parseMiniCol_ok {squares : List Square} {buf : List Nat} {g : Grid}
    {k col row i : Nat} {g' : Grid} {k' : Nat}
    (h : parseMiniCol squares buf g k col row i = .ok (g', k')) :
    k' = k + i ∧ (∀ t, t < i → k + t < buf.length) ∧
    (∀ c r, (c ≠ col ∧ c ≠ col + 1) ∨ r < row ∨ row + 2 * i ≤ r → g' c r = g c r) ∧
    (∀ t, t < i → ∀ v, buf[k + t]? = some v →
      (v = 0 → ∀ dc dr, dc ≤ 1 → dr ≤ 1 →
        g' (col + dc) (row + 2 * t + dr) = g (col + dc) (row + 2 * t + dr)) ∧
      (v ≠ 0 → ∃ sq, squares[v - 1]? = some sq ∧
        ∀ dc dr, dc ≤ 1 → dr ≤ 1 →
          g' (col + dc) (row + 2 * t + dr)
            = attrSet (g (col + dc) (row + 2 * t + dr)) "pillarNum" (corner sq dc dr))) := by
  induction i generalizing g k row g' k' with
  | zero =>
    simp only [parseMiniCol, Except.ok.injEq, Prod.mk.injEq] at h
    obtain ⟨rfl, rfl⟩ := h
    exact ⟨by omega, fun t ht => by omega, fun c r _ => rfl, fun t ht => by omega⟩
  | succ i ih =>
    simp only [parseMiniCol] at h
    cases hb : buf[k]? with
    | none => simp [hb] at h
    | some v =>
      simp only [hb] at h
      by_cases hv : v = 0
      · rw [if_neg (show ¬(v ≠ 0) by omega)] at h
        obtain ⟨ihk, ihlt, ihframe, ihidx⟩ := ih h
        refine ⟨by omega, ?_, ?_, ?_⟩
        · intro t ht
          cases t with
          | zero => simpa using getElem?_lt_length hb
          | succ t' =>
            have := ihlt t' (by omega)
            omega
        · intro c r hcr
          exact ihframe c r (by omega)
        · intro t ht v' hbv
          cases t with
          | zero =>
            simp only [Nat.add_zero] at hbv
            rw [hb] at hbv
            cases hbv
            constructor
            · intro _ dc dr hdc hdr
              exact ihframe _ _ (by omega)
            · intro hv'
              exact absurd hv hv'
          | succ t' =>
            have hbv' : buf[k + 1 + t']? = some v' := by
              rw [show k + 1 + t' = k + (t' + 1) by omega]
              exact hbv
            obtain ⟨hz, hnz⟩ := ihidx t' (by omega) v' hbv'
            constructor
            · intro hv0 dc dr hdc hdr
              have hc : row + 2 * (t' + 1) + dr = row + 2 + 2 * t' + dr := by omega
              rw [hc]
              exact hz hv0 dc dr hdc hdr
            · intro hv'
              obtain ⟨sq, hsq, hcell⟩ := hnz hv'
              refine ⟨sq, hsq, ?_⟩
              intro dc dr hdc hdr
              have hc : row + 2 * (t' + 1) + dr = row + 2 + 2 * t' + dr := by omega
              rw [hc]
              exact hcell dc dr hdc hdr
      · rw [if_pos hv] at h
        cases hsq : squares[v - 1]? with
        | none => simp [hsq] at h
        | some sq =>
          simp only [hsq] at h
          cases hw : writeSquare g col row sq with
          | none => simp [hw] at h
          | some g1 =>
            simp only [hw] at h
            obtain ⟨ihk, ihlt, ihframe, ihidx⟩ := ih h
            refine ⟨by omega, ?_, ?_, ?_⟩
            · intro t ht
              cases t with
              | zero => simpa using getElem?_lt_length hb
              | succ t' =>
                have := ihlt t' (by omega)
                omega
            · intro c r hcr
              rw [ihframe c r (by omega)]
              refine writeSquare_frame hw c r ?_
              rcases hcr with hcr | hcr | hcr
              · left; exact hcr
              · right; omega
              · right; omega
            · intro t ht v' hbv
              cases t with
              | zero =>
                simp only [Nat.add_zero] at hbv
                rw [hb] at hbv
                cases hbv
                constructor
                · intro hv0
                  exact absurd hv0 hv
                · intro _
                  refine ⟨sq, hsq, ?_⟩
                  intro dc dr hdc hdr
                  have h1 : g' (col + dc) (row + 2 * 0 + dr) = g1 (col + dc) (row + 2 * 0 + dr) :=
                    ihframe _ _ (by omega)
                  rw [h1, show row + 2 * 0 + dr = row + dr by omega]
                  exact writeSquare_cell hw dc dr hdc hdr
              | succ t' =>
                have hbv' : buf[k + 1 + t']? = some v' := by
                  rw [show k + 1 + t' = k + (t' + 1) by omega]
                  exact hbv
                obtain ⟨hz, hnz⟩ := ihidx t' (by omega) v' hbv'
                constructor
                · intro hv0 dc dr hdc hdr
                  have hc : row + 2 * (t' + 1) + dr = row + 2 + 2 * t' + dr := by omega
                  rw [hc, hz hv0 dc dr hdc hdr]
                  exact writeSquare_frame hw _ _ (by right; omega)
                · intro hv'
                  obtain ⟨sq', hsq', hcell⟩ := hnz hv'
                  refine ⟨sq', hsq', ?_⟩
                  intro dc dr hdc hdr
                  have hc : row + 2 * (t' + 1) + dr = row + 2 + 2 * t' + dr := by omega
                  rw [hc, hcell dc dr hdc hdr]
                  congr 1
                  exact writeSquare_frame hw _ _ (by right; omega)

theorem parseMiniCols_ok {squares : List Square} {buf : List Nat} {rowCount : Nat}
    {g : Grid} {k col j : Nat} {g' : Grid} {k' : Nat}
    (h : parseMiniCols squares buf rowCount g k col j = .ok (g', k')) :
    k' = k + rowCount * j ∧ (∀ t, t < rowCount * j → k + t < buf.length) ∧
    (∀ c r, c < col ∨ col + 2 * j ≤ c ∨ 2 * rowCount ≤ r → g' c r = g c r) ∧
    (∀ m, m < rowCount * j → ∀ v, buf[k + m]? = some v →
      (v = 0 → ∀ dc dr, dc ≤ 1 → dr ≤ 1 →
        g' (col + 2 * (m / rowCount) + dc) (2 * (m % rowCount) + dr)
          = g (col + 2 * (m / rowCount) + dc) (2 * (m % rowCount) + dr)) ∧
      (v ≠ 0 → ∃ sq, squares[v - 1]? = some sq ∧
        ∀ dc dr, dc ≤ 1 → dr ≤ 1 →
          g' (col + 2 * (m / rowCount) + dc) (2 * (m % rowCount) + dr)
            = attrSet (g (col + 2 * (m / rowCount) + dc) (2 * (m % rowCount) + dr))
                "pillarNum" (corner sq dc dr))) := by
  induction j generalizing g k col g' k' with
  | zero =>
    simp only [parseMiniCols, Except.ok.injEq, Prod.mk.injEq] at h
    obtain ⟨rfl, rfl⟩ := h
    exact ⟨by omega, fun t ht => by simp at ht, fun c r _ => rfl, fun m hm => by simp at hm⟩
  | succ j ih =>
    simp only [parseMiniCols] at h
    cases hcol : parseMiniCol squares buf g k col 0 rowCount with
    | error e => rw [hcol] at h; cases h
    | ok gk =>
      obtain ⟨g1, k1⟩ := gk
      simp only [hcol] at h
      obtain ⟨rk, rlt, rframe, ridx⟩ := parseMiniCol_ok hcol
      obtain ⟨ik, ilt, iframe, iidx⟩ := ih h
      have hmul : rowCount * (j + 1) = rowCount * j + rowCount := by ring
      subst rk
      refine ⟨by omega, ?_, ?_, ?_⟩
      · intro t ht
        by_cases htr : t < rowCount
        · exact rlt t htr
        · have := ilt (t - rowCount) (by omega)
          omega
      · intro c r hcr
        rw [iframe c r (by omega)]
        exact rframe c r (by omega)
      · intro m hm v hbv
        by_cases hmr : m < rowCount
        · have hmod : m % rowCount = m := Nat.mod_eq_of_lt hmr
          have hdiv : m / rowCount = 0 := Nat.div_eq_of_lt hmr
          obtain ⟨hz, hnz⟩ := ridx m hmr v hbv
          constructor
          · intro hv0 dc dr hdc hdr
            rw [hmod, hdiv]
            have h1 : g' (col + 2 * 0 + dc) (2 * m + dr) = g1 (col + 2 * 0 + dc) (2 * m + dr) :=
              iframe _ _ (by omega)
            rw [h1, show col + 2 * 0 + dc = col + dc by omega]
            have h2 := hz hv0 dc dr hdc hdr
            rw [show 0 + 2 * m + dr = 2 * m + dr by omega] at h2
            exact h2
          · intro hv'
            obtain ⟨sq, hsq, hcell⟩ := hnz hv'
            refine ⟨sq, hsq, ?_⟩
            intro dc dr hdc hdr
            rw [hmod, hdiv]
            have h1 : g' (col + 2 * 0 + dc) (2 * m + dr) = g1 (col + 2 * 0 + dc) (2 * m + dr) :=
              iframe _ _ (by omega)
            rw [h1, show col + 2 * 0 + dc = col + dc by omega]
            have h2 := hcell dc dr hdc hdr
            rw [show 0 + 2 * m + dr = 2 * m + dr by omega] at h2
            exact h2
        · have hrc : 0 < rowCount := by
            rcases Nat.eq_zero_or_pos rowCount with h0 | h0
            · subst h0; simp at hm
            · exact h0
          have hmod : m % rowCount = (m - rowCount) % rowCount := Nat.mod_eq_sub_mod (by omega)
          have hdiv : m / rowCount = (m - rowCount) / rowCount + 1 :=
            Nat.div_eq_sub_div hrc (by omega)
          have hbv' : buf[k + rowCount + (m - rowCount)]? = some v := by
            rw [show k + rowCount + (m - rowCount) = k + m by omega]
            exact hbv
          obtain ⟨hz, hnz⟩ := iidx (m - rowCount) (by omega) v hbv'
          have hcells : ∀ x : Nat, col + 2 * ((m - rowCount) / rowCount + 1) + x
              = col + 2 + 2 * ((m - rowCount) / rowCount) + x := by intro x; omega
          constructor
          · intro hv0 dc dr hdc hdr
            rw [hmod, hdiv, hcells]
            rw [hz hv0 dc dr hdc hdr]
            exact rframe _ _ (by omega)
          · intro hv'
            obtain ⟨sq, hsq, hcell⟩ := hnz hv'
            refine ⟨sq, hsq, ?_⟩
            intro dc dr hdc hdr
            rw [hmod, hdiv, hcells]
            rw [hcell dc dr hdc hdr]
            congr 1
            exact rframe _ _ (by omega)

theorem ParseMini_ok_elim {squares : List Square} {g0 : Grid} {buf : List Nat}
    {colCount rowCount : Nat} {g : Grid}
    (h : ParseMini squares g0 buf colCount rowCount = .ok g) :
    ∃ k', parseMiniCols squares buf rowCount g0 0 0 colCount = .ok (g, k') := by
  unfold ParseMini at h
  cases hc : parseMiniCols squares buf rowCount g0 0 0 colCount with
  | error e => rw [hc] at h; cases h
  | ok gk =>
    obtain ⟨g1, k1⟩ := gk
    simp only [hc, Except.ok.injEq] at h
    subst h
    exact ⟨k1, rfl⟩

/-! ### Claim C2 (amended) and claim C3 -/

/-- Claim C2 (amended): the full-stream variant places the `k`-th value of
the square plane at the block with origin
`(colStart + 2*(k mod quadWidth), rowStart + 2*(k div quadWidth))` — as the
claim states — but the fixed-size variant consumes the plane column-major:
its `k`-th value is placed at the block with origin
`(2*(k div rowCount), 2*(k mod rowCount))`. -/
theorem dun_C2_amended :
    (∀ (squares : List Square) (colStart rowStart : Nat) (g0 : Grid) (s : List Nat)
       (g : Grid) (qw qh : Nat) (s1 : List Nat) (k : Nat),
      readHeader s = .ok (qw, qh, s1) →
      Parse squares colStart rowStart g0 s = .ok g →
      k < qw * qh → val16 s1 k ≠ 0 →
      ∃ sq, squares[val16 s1 k - 1]? = some sq ∧
        ∀ dc dr, dc ≤ 1 → dr ≤ 1 →
          attrGet (g (colStart + 2 * (k % qw) + dc) (rowStart + 2 * (k / qw) + dr)) "pillarNum"
            = some (corner sq dc dr)) ∧
    (∀ (squares : List Square) (g0 : Grid) (buf : List Nat) (colCount rowCount : Nat)
       (g : Grid) (k v : Nat),
      ParseMini squares g0 buf colCount rowCount = .ok g →
      k < colCount * rowCount → buf[k]? = some v → v ≠ 0 →
      ∃ sq, squares[v - 1]? = some sq ∧
        ∀ dc dr, dc ≤ 1 → dr ≤ 1 →
          attrGet (g (2 * (k / rowCount) + dc) (2 * (k % rowCount) + dr)) "pillarNum"
            = some (corner sq dc dr)) := by
  constructor
  · intro squares colStart rowStart g0 s g qw qh s1 k hq h hk hkv
    obtain ⟨g1, s2, hsq, hpl⟩ := Parse_ok_elim hq h
    obtain ⟨_, _, _, _, snz⟩ := parseSqRows_ok hsq
    obtain ⟨_, ppres⟩ := parsePlanes_ok hpl
    obtain ⟨sq, hsqv, hcell⟩ := snz k hk hkv
    refine ⟨sq, hsqv, ?_⟩
    intro dc dr hdc hdr
    rw [ppres, hcell dc dr hdc hdr, attrGet_attrSet_self]
  · intro squares g0 buf colCount rowCount g k v h hk hbv hv
    obtain ⟨k', hcols⟩ := ParseMini_ok_elim h
    obtain ⟨_, _, _, midx⟩ := parseMiniCols_ok hcols
    have hbv0 : buf[0 + k]? = some v := by simpa using hbv
    obtain ⟨_, hnz⟩ := midx k (by rw [Nat.mul_comm]; exact hk) v hbv0
    obtain ⟨sq, hsqv, hcell⟩ := hnz hv
    refine ⟨sq, hsqv, ?_⟩
    intro dc dr hdc hdr
    have h1 := hcell dc dr hdc hdr
    rw [show (0 : Nat) + 2 * (k / rowCount) + dc = 2 * (k / rowCount) + dc by omega] at h1
    rw [h1, attrGet_attrSet_self]

/-! ### Failure analysis for the square plane -/

theorem parseSqRow_zeros {squares : List Square} (g : Grid) (s : List Nat) (col row j : Nat)
    (hz : ∀ t, t < j → val16 s t = 0) (hlen : 2 * j ≤ s.length) :
    parseSqRow squares g s col row j = .ok (g, s.drop (2 * j)) := by
  induction j generalizing s col with
  | zero => simp [parseSqRow]
  | succ j ih =>
    have hr : read16 s = .ok (val16 s 0, s.drop 2) := read16_of_len (by omega)
    have hv0 : val16 s 0 = 0 := hz 0 (by omega)
    have hz' : ∀ t, t < j → val16 (s.drop 2) t = 0 := by
      intro t ht
      rw [show (2 : Nat) = 2 * 1 by omega, val16_drop]
      exact hz (1 + t) (by omega)
    have hdlen : (s.drop 2).length = s.length - 2 := by simp
    have hrec := ih (s.drop 2) (col + 2) hz' (by omega)
    simp only [parseSqRow, hr, hv0]
    rw [if_neg (by omega)]
    rw [hrec, List.drop_drop]
    rw [show (2 : Nat) + 2 * j = 2 * (j + 1) by omega]

theorem parseSqRow_squareCrash {squares : List Square} (g : Grid) (s : List Nat)
    (col row j t : Nat) (ht : t < j) (hz : ∀ u, u < t → val16 s u = 0)
    (hlen : 2 * (t + 1) ≤ s.length) (hv : val16 s t ≠ 0)
    (hid : squares.length ≤ val16 s t - 1) :
    parseSqRow squares g s col row j = .error (.crash .squareIdx) := by
  induction t generalizing s col j g with
  | zero =>
    cases j with
    | zero => omega
    | succ j =>
      have hr : read16 s = .ok (val16 s 0, s.drop 2) := read16_of_len (by omega)
      have hnone : squares[val16 s 0 - 1]? = none := List.getElem?_eq_none hid
      simp only [parseSqRow, hr]
      rw [if_pos hv, hnone]
  | succ t ih =>
    cases j with
    | zero => omega
    | succ j =>
      have hr : read16 s = .ok (val16 s 0, s.drop 2) := read16_of_len (by omega)
      have hv0 : val16 s 0 = 0 := hz 0 (by omega)
      have hsh : ∀ u, val16 (s.drop 2) u = val16 s (1 + u) := by
        intro u
        rw [show (2 : Nat) = 2 * 1 by omega, val16_drop]
      have hdlen : (s.drop 2).length = s.length - 2 := by simp
      have hrec := ih g (s.drop 2) (col + 2) j (by omega)
        (fun u hu => by rw [hsh]; exact hz (1 + u) (by omega))
        (by omega)
        (by rw [hsh, show 1 + t = t + 1 by omega]; exact hv)
        (by rw [hsh, show 1 + t = t + 1 by omega]; exact hid)
      simp only [parseSqRow, hr, hv0]
      rw [if_neg (by omega)]
      exact hrec

theorem parseSqRow_gridCrash {squares : List Square} (g : Grid) (s : List Nat)
    (col row j t : Nat) (ht : t < j) (hz : ∀ u, u < t → val16 s u = 0)
    (hlen : 2 * (t + 1) ≤ s.length) (hv : val16 s t ≠ 0)
    (hid : val16 s t - 1 < squares.length)
    (hoob : ¬(col + 2 * t + 1 < ColMax ∧ row + 1 < RowMax)) :
    parseSqRow squares g s col row j = .error (.crash .gridIdx) := by
  induction t generalizing s col j g with
  | zero =>
    cases j with
    | zero => omega
    | succ j =>
      have hr : read16 s = .ok (val16 s 0, s.drop 2) := read16_of_len (by omega)
      have hsome : squares[val16 s 0 - 1]? = some (squares[val16 s 0 - 1]) :=
        List.getElem?_eq_getElem hid
      have hw : writeSquare g col row (squares[val16 s 0 - 1]) = none :=
        writeSquare_none (by omega)
      simp only [parseSqRow, hr]
      rw [if_pos hv]
      simp only [hsome, hw]
  | succ t ih =>
    cases j with
    | zero => omega
    | succ j =>
      have hr : read16 s = .ok (val16 s 0, s.drop 2) := read16_of_len (by omega)
      have hv0 : val16 s 0 = 0 := hz 0 (by omega)
      have hsh : ∀ u, val16 (s.drop 2) u = val16 s (1 + u) := by
        intro u
        rw [show (2 : Nat) = 2 * 1 by omega, val16_drop]
      have hdlen : (s.drop 2).length = s.length - 2 := by simp
      have hrec := ih g (s.drop 2) (col + 2) j (by omega)
        (fun u hu => by rw [hsh]; exact hz (1 + u) (by omega))
        (by omega)
        (by rw [hsh, show 1 + t = t + 1 by omega]; exact hv)
        (by rw [hsh, show 1 + t = t + 1 by omega]; exact hid)
        (by omega)
      simp only [parseSqRow, hr, hv0]
      rw [if_neg (by omega)]
      exact hrec

theorem parseSqRows_zeros {squares : List Square} (qw colStart : Nat) (g : Grid)
    (s : List Nat) (row i : Nat)
    (hz : ∀ k, k < qw * i → val16 s k = 0) (hlen : 2 * (qw * i) ≤ s.length) :
    parseSqRows squares qw colStart g s row i = .ok (g, s.drop (2 * (qw * i))) := by
  induction i generalizing s row with
  | zero => simp [parseSqRows]
  | succ i ih =>
    have hmul : qw * (i + 1) = qw * i + qw := by ring
    have hrow : parseSqRow squares g s colStart row qw = .ok (g, s.drop (2 * qw)) :=
      parseSqRow_zeros g s colStart row qw (fun t ht => hz t (by omega)) (by omega)
    have hdlen : (s.drop (2 * qw)).length = s.length - 2 * qw := by simp
    have hz' : ∀ k, k < qw * i → val16 (s.drop (2 * qw)) k = 0 := by
      intro k hk
      rw [val16_drop]
      exact hz (qw + k) (by omega)
    have hrec := ih (s.drop (2 * qw)) (row + 2) hz' (by omega)
    simp only [parseSqRows, hrow, hrec, List.drop_drop]
    rw [show 2 * qw + 2 * (qw * i) = 2 * (qw * (i + 1)) by ring]

theorem parseSqRows_squareCrash {squares : List Square} (qw colStart : Nat) (g : Grid)
    (s : List Nat) (row i k : Nat) (hk : k < qw * i)
    (hz : ∀ u, u < k → val16 s u = 0) (hlen : 2 * (k + 1) ≤ s.length)
    (hv : val16 s k ≠ 0) (hid : squares.length ≤ val16 s k - 1) :
    parseSqRows squares qw colStart g s row i = .error (.crash .squareIdx) := by
  induction i generalizing s row k with
  | zero => simp at hk
  | succ i ih =>
    have hmul : qw * (i + 1) = qw * i + qw := by ring
    by_cases hklt : k < qw
    · have hcrash := parseSqRow_squareCrash g s colStart row qw k hklt hz hlen hv hid
      simp only [parseSqRows, hcrash]
    · have hqw : 0 < qw := by
        rcases Nat.eq_zero_or_pos qw with h0 | h0
        · subst h0; simp at hk
        · exact h0
      have hrow : parseSqRow squares g s colStart row qw = .ok (g, s.drop (2 * qw)) :=
        parseSqRow_zeros g s colStart row qw (fun t ht => hz t (by omega)) (by omega)
      have hdlen : (s.drop (2 * qw)).length = s.length - 2 * qw := by simp
      have hsh : ∀ u, val16 (s.drop (2 * qw)) u = val16 s (qw + u) := by
        intro u
        rw [val16_drop]
      have hrec := ih (s.drop (2 * qw)) (row + 2) (k - qw) (by omega)
        (fun u hu => by rw [hsh]; exact hz (qw + u) (by omega))
        (by omega)
        (by rw [hsh, show qw + (k - qw) = k by omega]; exact hv)
        (by rw [hsh, show qw + (k - qw) = k by omega]; exact hid)
      simp only [parseSqRows, hrow, hrec]

theorem parseSqRows_gridCrash {squares : List Square} (qw colStart : Nat) (g : Grid)
    (s : List Nat) (row i k : Nat) (hk : k < qw * i)
    (hz : ∀ u, u < k → val16 s u = 0) (hlen : 2 * (k + 1) ≤ s.length)
    (hv : val16 s k ≠ 0) (hid : val16 s k - 1 < squares.length)
    (hoob : ¬(colStart + 2 * (k % qw) + 1 < ColMax ∧ row + 2 * (k / qw) + 1 < RowMax)) :
    parseSqRows squares qw colStart g s row i = .error (.crash .gridIdx) := by
  induction i generalizing s row k with
  | zero => simp at hk
  | succ i ih =>
    have hmul : qw * (i + 1) = qw * i + qw := by ring
    by_cases hklt : k < qw
    · have hmod : k % qw = k := Nat.mod_eq_of_lt hklt
      have hdiv : k / qw = 0 := Nat.div_eq_of_lt hklt
      rw [hmod, hdiv] at hoob
      have hcrash := parseSqRow_gridCrash g s colStart row qw k hklt hz hlen hv hid
        (by intro hcontra; exact hoob ⟨hcontra.1, by omega⟩)
      simp only [parseSqRows, hcrash]
    · have hqw : 0 < qw := by
        rcases Nat.eq_zero_or_pos qw with h0 | h0
        · subst h0; simp at hk
        · exact h0
      have hmod : k % qw = (k - qw) % qw := Nat.mod_eq_sub_mod (by omega)
      have hdiv : k / qw = (k - qw) / qw + 1 := Nat.div_eq_sub_div hqw (by omega)
      rw [hmod, hdiv] at hoob
      have hrow : parseSqRow squares g s colStart row qw = .ok (g, s.drop (2 * qw)) :=
        parseSqRow_zeros g s colStart row qw (fun t ht => hz t (by omega)) (by omega)
      have hdlen : (s.drop (2 * qw)).length = s.length - 2 * qw := by simp
      have hsh : ∀ u, val16 (s.drop (2 * qw)) u = val16 s (qw + u) := by
        intro u
        rw [val16_drop]
      have hrec := ih (s.drop (2 * qw)) (row + 2) (k - qw) (by omega)
        (fun u hu => by rw [hsh]; exact hz (qw + u) (by omega))
        (by omega)
        (by rw [hsh, show qw + (k - qw) = k by omega]; exact hv)
        (by rw [hsh, show qw + (k - qw) = k by omega]; exact hid)
        (by intro hcontra; exact hoob ⟨hcontra.1, by omega⟩)
      simp only [parseSqRows, hrow, hrec]

theorem Parse_squareCrash {squares : List Square} {colStart rowStart : Nat} {g0 : Grid}
    {s : List Nat} {qw qh : Nat} {s1 : List Nat} (k : Nat)
    (hq : readHeader s = .ok (qw, qh, s1)) (hk : k < qw * qh)
    (hz : ∀ u, u < k → val16 s1 u = 0) (hlen : 2 * (k + 1) ≤ s1.length)
    (hv : val16 s1 k ≠ 0) (hid : squares.length ≤ val16 s1 k - 1) :
    Parse squares colStart rowStart g0 s = .error (.crash .squareIdx) := by
  have hcr := parseSqRows_squareCrash qw colStart g0 s1 rowStart qh k hk hz hlen hv hid
  unfold Parse
  simp only [hq, hcr]

theorem Parse_gridCrash {squares : List Square} {colStart rowStart : Nat} {g0 : Grid}
    {s : List Nat} {qw qh : Nat} {s1 : List Nat} (k : Nat)
    (hq : readHeader s = .ok (qw, qh, s1)) (hk : k < qw * qh)
    (hz : ∀ u, u < k → val16 s1 u = 0) (hlen : 2 * (k + 1) ≤ s1.length)
    (hv : val16 s1 k ≠ 0) (hid : val16 s1 k - 1 < squares.length)
    (hoob : ¬(colStart + 2 * (k % qw) + 1 < ColMax ∧ rowStart + 2 * (k / qw) + 1 < RowMax)) :
    Parse squares colStart rowStart g0 s = .error (.crash .gridIdx) := by
  have hcr := parseSqRows_gridCrash qw colStart g0 s1 rowStart qh k hk hz hlen hv hid hoob
  unfold Parse
  simp only [hq, hcr]

/-! ### Which fault kinds each phase can produce -/

theorem read16_err {s : List Nat} {e : Fault} (h : read16 s = .error e) :
    ∃ e', e = .ioErr e' := by
  match s with
  | [] => simp only [read16, Except.error.injEq] at h; exact ⟨_, h.symm⟩
  | [b] => simp only [read16, Except.error.injEq] at h; exact ⟨_, h.symm⟩
  | b0 :: b1 :: rest => simp [read16] at h

theorem parseSqRow_ne_squareIdx {squares : List Square} (g : Grid) (s : List Nat)
    (col row j : Nat)
    (hids : ∀ t, t < j → val16 s t ≠ 0 → val16 s t - 1 < squares.length) :
    parseSqRow squares g s col row j ≠ .error (.crash .squareIdx) := by
  induction j generalizing g s col with
  | zero => simp [parseSqRow]
  | succ j ih =>
    intro hcontra
    simp only [parseSqRow] at hcontra
    cases hr : read16 s with
    | error e =>
      obtain ⟨e', rfl⟩ := read16_err hr
      simp [hr] at hcontra
    | ok vs =>
      obtain ⟨v, s1⟩ := vs
      simp only [hr] at hcontra
      obtain ⟨hlen2, hs1, hv0⟩ := read16_ok hr
      have hsh : ∀ u, val16 s1 u = val16 s (1 + u) := by
        intro u
        rw [hs1, show (2 : Nat) = 2 * 1 by omega, val16_drop]
      have hids' : ∀ t, t < j → val16 s1 t ≠ 0 → val16 s1 t - 1 < squares.length := by
        intro t ht
        rw [hsh]
        exact hids (1 + t) (by omega)
      by_cases hv : v = 0
      · rw [if_neg (show ¬(v ≠ 0) by omega)] at hcontra
        exact ih g s1 (col + 2) hids' hcontra
      · rw [if_pos hv] at hcontra
        have hidv : v - 1 < squares.length := by
          have := hids 0 (by omega) (by omega)
          omega
        rw [List.getElem?_eq_getElem hidv] at hcontra
        cases hw : writeSquare g col row (squares[v - 1]) with
        | none => simp [hw] at hcontra
        | some g1 =>
          simp only [hw] at hcontra
          exact ih g1 s1 (col + 2) hids' hcontra

theorem parseSqRow_ne_gridIdx {squares : List Square} (g : Grid) (s : List Nat)
    (col row j : Nat) (hb : col + 2 * j ≤ ColMax) (hrow : row + 2 ≤ RowMax) :
    parseSqRow squares g s col row j ≠ .error (.crash .gridIdx) := by
  induction j generalizing g s col with
  | zero => simp [parseSqRow]
  | succ j ih =>
    intro hcontra
    simp only [parseSqRow] at hcontra
    cases hr : read16 s with
    | error e =>
      obtain ⟨e', rfl⟩ := read16_err hr
      simp [hr] at hcontra
    | ok vs =>
      obtain ⟨v, s1⟩ := vs
      simp only [hr] at hcontra
      by_cases hv : v = 0
      · rw [if_neg (show ¬(v ≠ 0) by omega)] at hcontra
        exact ih g s1 (col + 2) (by omega) hcontra
      · rw [if_pos hv] at hcontra
        cases hsq : squares[v - 1]? with
        | none => simp [hsq] at hcontra
        | some sq =>
          simp only [hsq] at hcontra
          obtain ⟨g1, hw⟩ := writeSquare_isSome g col row sq (by omega) (by omega)
          simp only [hw] at hcontra
          exact ih g1 s1 (col + 2) (by omega) hcontra

theorem parseSqRows_ne_squareIdx {squares : List Square} (qw colStart : Nat) (g : Grid)
    (s : List Nat) (row i : Nat)
    (hids : ∀ k, k < qw * i → val16 s k ≠ 0 → val16 s k - 1 < squares.length) :
    parseSqRows squares qw colStart g s row i ≠ .error (.crash .squareIdx) := by
  induction i generalizing g s row with
  | zero => simp [parseSqRows]
  | succ i ih =>
    have hmul : qw * (i + 1) = qw * i + qw := by ring
    intro hcontra
    simp only [parseSqRows] at hcontra
    cases hrow : parseSqRow squares g s colStart row qw with
    | error e =>
      simp only [hrow] at hcontra
      cases hcontra
      exact parseSqRow_ne_squareIdx g s colStart row qw
        (fun t ht => hids t (by omega)) hrow
    | ok gs =>
      obtain ⟨g1, s1⟩ := gs
      simp only [hrow] at hcontra
      obtain ⟨_, rdrop, _, _, _⟩ := parseSqRow_ok hrow
      have hsh : ∀ u, val16 s1 u = val16 s (qw + u) := by
        intro u
        rw [rdrop, val16_drop]
      refine ih g1 s1 (row + 2) ?_ hcontra
      intro k hk
      rw [hsh]
      exact hids (qw + k) (by omega)

theorem parseSqRows_ne_gridIdx {squares : List Square} (qw colStart : Nat) (g : Grid)
    (s : List Nat) (row i : Nat) (hb : colStart + 2 * qw ≤ ColMax)
    (hrow : row + 2 * i ≤ RowMax) :
    parseSqRows squares qw colStart g s row i ≠ .error (.crash .gridIdx) := by
  induction i generalizing g s row with
  | zero => simp [parseSqRows]
  | succ i ih =>
    intro hcontra
    simp only [parseSqRows] at hcontra
    cases hrow1 : parseSqRow squares g s colStart row qw with
    | error e =>
      simp only [hrow1] at hcontra
      cases hcontra
      exact parseSqRow_ne_gridIdx g s colStart row qw hb (by omega) hrow1
    | ok gs =>
      obtain ⟨g1, s1⟩ := gs
      simp only [hrow1] at hcontra
      exact ih g1 s1 (row + 2) (by omega) hcontra

theorem planeRow_ne_squareIdx {key : String} (g : Grid) (s : List Nat) (col row j : Nat) :
    planeRow key g s col row j ≠ .error (.crash .squareIdx) := by
  induction j generalizing g s col with
  | zero => simp [planeRow]
  | succ j ih =>
    intro hcontra
    simp only [planeRow] at hcontra
    cases hr : read16 s with
    | error e =>
      obtain ⟨e', rfl⟩ := read16_err hr
      simp [hr] at hcontra
    | ok vs =>
      obtain ⟨v, s1⟩ := vs
      simp only [hr] at hcontra
      cases hgs : gridSet g col row key (v : Int) with
      | none => simp [hgs] at hcontra
      | some g1 =>
        simp only [hgs] at hcontra
        exact ih g1 s1 (col + 1) hcontra

theorem planeRow_ne_gridIdx {key : String} (g : Grid) (s : List Nat) (col row j : Nat)
    (hb : col + j ≤ ColMax) (hrow : row < RowMax) :
    planeRow key g s col row j ≠ .error (.crash .gridIdx) := by
  induction j generalizing g s col with
  | zero => simp [planeRow]
  | succ j ih =>
    intro hcontra
    simp only [planeRow] at hcontra
    cases hr : read16 s with
    | error e =>
      obtain ⟨e', rfl⟩ := read16_err hr
      simp [hr] at hcontra
    | ok vs =>
      obtain ⟨v, s1⟩ := vs
      simp only [hr] at hcontra
      obtain ⟨g1, hgs⟩ := gridSet_isSome g col row key (v : Int) (by omega) hrow
      simp only [hgs] at hcontra
      exact ih g1 s1 (col + 1) (by omega) hcontra

theorem planeRows_ne_squareIdx {key : String} (w colStart : Nat) (g : Grid) (s : List Nat)
    (row i : Nat) :
    planeRows key w colStart g s row i ≠ .error (.crash .squareIdx) := by
  induction i generalizing g s row with
  | zero => simp [planeRows]
  | succ i ih =>
    intro hcontra
    simp only [planeRows] at hcontra
    cases hrow : planeRow key g s colStart row w with
    | error e =>
      simp only [hrow] at hcontra
      cases hcontra
      exact planeRow_ne_squareIdx g s colStart row w hrow
    | ok gs =>
      obtain ⟨g1, s1⟩ := gs
      simp only [hrow] at hcontra
      exact ih g1 s1 (row + 1) hcontra

theorem planeRows_ne_gridIdx {key : String} (w colStart : Nat) (g : Grid) (s : List Nat)
    (row i : Nat) (hb : colStart + w ≤ ColMax) (hrow : row + i ≤ RowMax) :
    planeRows key w colStart g s row i ≠ .error (.crash .gridIdx) := by
  induction i generalizing g s row with
  | zero => simp [planeRows]
  | succ i ih =>
    intro hcontra
    simp only [planeRows] at hcontra
    cases hrow1 : planeRow key g s colStart row w with
    | error e =>
      simp only [hrow1] at hcontra
      cases hcontra
      exact planeRow_ne_gridIdx g s colStart row w hb (by omega) hrow1
    | ok gs =>
      obtain ⟨g1, s1⟩ := gs
      simp only [hrow1] at hcontra
      exact ih g1 s1 (row + 1) (by omega) hcontra

theorem parsePlane_ne_squareIdx {key : String} (g : Grid) (s : List Nat)
    (cs rs w h : Nat) :
    parsePlane key g s cs rs w h ≠ .error (.crash .squareIdx) := by
  intro hcontra
  unfold parsePlane at hcontra
  by_cases hwh : w = 0 ∨ h = 0
  · rw [if_pos hwh] at hcontra; cases hcontra
  · rw [if_neg hwh] at hcontra
    by_cases hs : s = []
    · rw [if_pos hs] at hcontra; cases hcontra
    · rw [if_neg hs] at hcontra
      cases hpr : planeRows key w cs g s rs h with
      | error e =>
        simp only [hpr] at hcontra
        cases hcontra
        exact planeRows_ne_squareIdx w cs g s rs h hpr
      | ok gs =>
        obtain ⟨g1, s1⟩ := gs
        simp [hpr] at hcontra

theorem parsePlane_ne_gridIdx {key : String} (g : Grid) (s : List Nat)
    (cs rs w h : Nat) (hb : cs + w ≤ ColMax) (hrow : rs + h ≤ RowMax) :
    parsePlane key g s cs rs w h ≠ .error (.crash .gridIdx) := by
  intro hcontra
  unfold parsePlane at hcontra
  by_cases hwh : w = 0 ∨ h = 0
  · rw [if_pos hwh] at hcontra; cases hcontra
  · rw [if_neg hwh] at hcontra
    by_cases hs : s = []
    · rw [if_pos hs] at hcontra; cases hcontra
    · rw [if_neg hs] at hcontra
      cases hpr : planeRows key w cs g s rs h with
      | error e =>
        simp only [hpr] at hcontra
        cases hcontra
        exact planeRows_ne_gridIdx w cs g s rs h hb hrow hpr
      | ok gs =>
        obtain ⟨g1, s1⟩ := gs
        simp [hpr] at hcontra

theorem parsePlanes_ne_squareIdx (g : Grid) (s : List Nat) (cs rs qw qh : Nat) :
    parsePlanes g s cs rs qw qh ≠ .error (.crash .squareIdx) := by
  intro hcontra
  unfold parsePlanes at hcontra
  cases h1 : parsePlane "unknown" g s cs rs (2 * qw) (2 * qh) with
  | error e =>
    simp only [h1] at hcontra
    cases hcontra
    exact parsePlane_ne_squareIdx g s cs rs (2 * qw) (2 * qh) h1
  | ok st1 =>
    simp only [h1] at hcontra
    cases st1 with
    | done g2 => cases hcontra
    | next g2 s3 =>
      cases h2 : parsePlane "dunMonsterID" g2 s3 cs rs (2 * qw) (2 * qh) with
      | error e =>
        simp only [h2] at hcontra
        cases hcontra
        exact parsePlane_ne_squareIdx g2 s3 cs rs (2 * qw) (2 * qh) h2
      | ok st2 =>
        simp only [h2] at hcontra
        cases st2 with
        | done g3 => cases hcontra
        | next g3 s4 =>
          cases h3 : parsePlane "dunObjectID" g3 s4 cs rs (2 * qw) (2 * qh) with
          | error e =>
            simp only [h3] at hcontra
            cases hcontra
            exact parsePlane_ne_squareIdx g3 s4 cs rs (2 * qw) (2 * qh) h3
          | ok st3 =>
            simp only [h3] at hcontra
            cases st3 with
            | done g4 => cases hcontra
            | next g4 s5 =>
              cases h4 : parsePlane "transparency" g4 s5 cs rs (2 * qw) (2 * qh) with
              | error e =>
                simp only [h4] at hcontra
                cases hcontra
                exact parsePlane_ne_squareIdx g4 s5 cs rs (2 * qw) (2 * qh) h4
              | ok st4 =>
                simp only [h4] at hcontra
                cases st4 with
                | done g5 => cases hcontra
                | next g5 s6 => cases hcontra

theorem parsePlanes_ne_gridIdx (g : Grid) (s : List Nat) (cs rs qw qh : Nat)
    (hb : cs + 2 * qw ≤ ColMax) (hrow : rs + 2 * qh ≤ RowMax) :
    parsePlanes g s cs rs qw qh ≠ .error (.crash .gridIdx) := by
  intro hcontra
  unfold parsePlanes at hcontra
  cases h1 : parsePlane "unknown" g s cs rs (2 * qw) (2 * qh) with
  | error e =>
    simp only [h1] at hcontra
    cases hcontra
    exact parsePlane_ne_gridIdx g s cs rs (2 * qw) (2 * qh) hb hrow h1
  | ok st1 =>
    simp only [h1] at hcontra
    cases st1 with
    | done g2 => cases hcontra
    | next g2 s3 =>
      cases h2 : parsePlane "dunMonsterID" g2 s3 cs rs (2 * qw) (2 * qh) with
      | error e =>
        simp only [h2] at hcontra
        cases hcontra
        exact parsePlane_ne_gridIdx g2 s3 cs rs (2 * qw) (2 * qh) hb hrow h2
      | ok st2 =>
        simp only [h2] at hcontra
        cases st2 with
        | done g3 => cases hcontra
        | next g3 s4 =>
          cases h3 : parsePlane "dunObjectID" g3 s4 cs rs (2 * qw) (2 * qh) with
          | error e =>
            simp only [h3] at hcontra
            cases hcontra
            exact parsePlane_ne_gridIdx g3 s4 cs rs (2 * qw) (2 * qh) hb hrow h3
          | ok st3 =>
            simp only [h3] at hcontra
            cases st3 with
            | done g4 => cases hcontra
            | next g4 s5 =>
              cases h4 : parsePlane "transparency" g4 s5 cs rs (2 * qw) (2 * qh) with
              | error e =>
                simp only [h4] at hcontra
                cases hcontra
                exact parsePlane_ne_gridIdx g4 s5 cs rs (2 * qw) (2 * qh) hb hrow h4
              | ok st4 =>
                simp only [h4] at hcontra
                cases st4 with
                | done g5 => cases hcontra
                | next g5 s6 => cases hcontra

theorem Parse_ne_squareIdx {squares : List Square} {colStart rowStart : Nat} {g0 : Grid}
    {s : List Nat} {qw qh : Nat} {s1 : List Nat}
    (hq : readHeader s = .ok (qw, qh, s1))
    (hids : ∀ k, k < qw * qh → val16 s1 k ≠ 0 → val16 s1 k - 1 < squares.length) :
    Parse squares colStart rowStart g0 s ≠ .error (.crash .squareIdx) := by
  intro hcontra
  unfold Parse at hcontra
  simp only [hq] at hcontra
  cases hsq : parseSqRows squares qw colStart g0 s1 rowStart qh with
  | error e =>
    simp only [hsq] at hcontra
    cases hcontra
    exact parseSqRows_ne_squareIdx qw colStart g0 s1 rowStart qh hids hsq
  | ok gs =>
    obtain ⟨g1, s2⟩ := gs
    simp only [hsq] at hcontra
    exact parsePlanes_ne_squareIdx g1 s2 colStart rowStart qw qh hcontra

theorem Parse_ne_gridIdx {squares : List Square} {colStart rowStart : Nat} {g0 : Grid}
    {s : List Nat} {qw qh : Nat} {s1 : List Nat}
    (hq : readHeader s = .ok (qw, qh, s1))
    (hb : colStart + 2 * qw ≤ ColMax) (hrow : rowStart + 2 * qh ≤ RowMax) :
    Parse squares colStart rowStart g0 s ≠ .error (.crash .gridIdx) := by
  intro hcontra
  unfold Parse at hcontra
  simp only [hq] at hcontra
  cases hsq : parseSqRows squares qw colStart g0 s1 rowStart qh with
  | error e =>
    simp only [hsq] at hcontra
    cases hcontra
    exact parseSqRows_ne_gridIdx qw colStart g0 s1 rowStart qh hb hrow hsq
  | ok gs =>
    obtain ⟨g1, s2⟩ := gs
    simp only [hsq] at hcontra
    exact parsePlanes_ne_gridIdx g1 s2 colStart rowStart qw qh hb hrow hcontra

/-! ### Failure analysis for the fixed-size variant -/

theorem mem_of_getElem {l : List Nat} {k : Nat} {v : Nat} (h : l[k]? = some v) : v ∈ l := by
  have hk := getElem?_lt_length h
  rw [List.getElem?_eq_getElem hk] at h
  cases h
  exact List.getElem_mem hk

theorem parseMiniCol_zeros {squares : List Square} (buf : List Nat) (g : Grid)
    (k col row i : Nat) (hz : ∀ u, u < i → buf[k + u]? = some 0) :
    parseMiniCol squares buf g k col row i = .ok (g, k + i) := by
  induction i generalizing k row with
  | zero => simp [parseMiniCol]
  | succ i ih =>
    have hb : buf[k]? = some 0 := by
      have := hz 0 (by omega)
      simpa using this
    have hrec := ih (k + 1) (row + 2) (fun u hu => by
      rw [show k + 1 + u = k + (u + 1) by omega]
      exact hz (u + 1) (by omega))
    simp only [parseMiniCol, hb]
    rw [if_neg (by omega)]
    rw [hrec]
    rw [show k + 1 + i = k + (i + 1) by omega]

theorem parseMiniCol_squareCrash {squares : List Square} (buf : List Nat) (g : Grid)
    (k col row i t : Nat) (ht : t < i) (hz : ∀ u, u < t → buf[k + u]? = some 0)
    {v : Nat} (hbv : buf[k + t]? = some v) (hv : v ≠ 0)
    (hid : squares.length ≤ v - 1) :
    parseMiniCol squares buf g k col row i = .error (.crash .squareIdx) := by
  induction t generalizing g k row i with
  | zero =>
    cases i with
    | zero => omega
    | succ i =>
      have hb : buf[k]? = some v := by simpa using hbv
      have hnone : squares[v - 1]? = none := List.getElem?_eq_none hid
      simp only [parseMiniCol, hb]
      rw [if_pos hv]
      simp only [hnone]
  | succ t ih =>
    cases i with
    | zero => omega
    | succ i =>
      have hb : buf[k]? = some 0 := by
        have := hz 0 (by omega)
        simpa using this
      have hrec := ih g (k + 1) (row + 2) i (by omega)
        (fun u hu => by
          rw [show k + 1 + u = k + (u + 1) by omega]
          exact hz (u + 1) (by omega))
        (by rw [show k + 1 + t = k + (t + 1) by omega]; exact hbv)
      simp only [parseMiniCol, hb]
      rw [if_neg (by omega)]
      exact hrec

theorem parseMiniCols_squareCrash {squares : List Square} (buf : List Nat) (g : Grid)
    (k col rowCount j m : Nat) (hm : m < rowCount * j)
    (hz : ∀ u, u < m → buf[k + u]? = some 0)
    {v : Nat} (hbv : buf[k + m]? = some v) (hv : v ≠ 0)
    (hid : squares.length ≤ v - 1) :
    parseMiniCols squares buf rowCount g k col j = .error (.crash .squareIdx) := by
  induction j generalizing g k col m with
  | zero => simp at hm
  | succ j ih =>
    have hmul : rowCount * (j + 1) = rowCount * j + rowCount := by ring
    by_cases hmr : m < rowCount
    · have hcrash := parseMiniCol_squareCrash buf g k col 0 rowCount m hmr hz hbv hv hid
      simp only [parseMiniCols, hcrash]
    · have hrc : 0 < rowCount := by
        rcases Nat.eq_zero_or_pos rowCount with h0 | h0
        · subst h0; simp at hm
        · exact h0
      have hcol : parseMiniCol squares buf g k col 0 rowCount = .ok (g, k + rowCount) :=
        parseMiniCol_zeros buf g k col 0 rowCount (fun u hu => hz u (by omega))
      have hrec := ih g (k + rowCount) (col + 2) (m - rowCount) (by omega)
        (fun u hu => by
          rw [show k + rowCount + u = k + (rowCount + u) by omega]
          exact hz (rowCount + u) (by omega))
        (by rw [show k + rowCount + (m - rowCount) = k + m by omega]; exact hbv)
      simp only [parseMiniCols, hcol, hrec]

theorem parseMiniCol_err {squares : List Square} {buf : List Nat} {g : Grid}
    {k col row i : Nat} {e : Fault}
    (h : parseMiniCol squares buf g k col row i = .error e) : ∃ p, e = .crash p := by
  induction i generalizing g k row with
  | zero => simp [parseMiniCol] at h
  | succ i ih =>
    simp only [parseMiniCol] at h
    cases hb : buf[k]? with
    | none =>
      simp only [hb, Except.error.injEq] at h
      exact ⟨_, h.symm⟩
    | some v =>
      simp only [hb] at h
      by_cases hv : v = 0
      · rw [if_neg (show ¬(v ≠ 0) by omega)] at h
        exact ih h
      · rw [if_pos hv] at h
        cases hsq : squares[v - 1]? with
        | none =>
          simp only [hsq, Except.error.injEq] at h
          exact ⟨_, h.symm⟩
        | some sq =>
          simp only [hsq] at h
          cases hw : writeSquare g col row sq with
          | none =>
            simp only [hw, Except.error.injEq] at h
            exact ⟨_, h.symm⟩
          | some g1 =>
            simp only [hw] at h
            exact ih h

theorem parseMiniCols_err {squares : List Square} {buf : List Nat} {rowCount : Nat}
    {g : Grid} {k col j : Nat} {e : Fault}
    (h : parseMiniCols squares buf rowCount g k col j = .error e) : ∃ p, e = .crash p := by
  induction j generalizing g k col with
  | zero => simp [parseMiniCols] at h
  | succ j ih =>
    simp only [parseMiniCols] at h
    cases hcol : parseMiniCol squares buf g k col 0 rowCount with
    | error e' =>
      simp only [hcol, Except.error.injEq] at h
      subst h
      exact parseMiniCol_err hcol
    | ok gk =>
      obtain ⟨g1, k1⟩ := gk
      simp only [hcol] at h
      exact ih h

theorem parseMiniCol_ne_bufIdx {squares : List Square} (buf : List Nat) (g : Grid)
    (k col row i : Nat) (hlen : k + i ≤ buf.length) :
    parseMiniCol squares buf g k col row i ≠ .error (.crash .bufIdx) := by
  induction i generalizing g k row with
  | zero => simp [parseMiniCol]
  | succ i ih =>
    intro hcontra
    simp only [parseMiniCol] at hcontra
    have hb : buf[k]? = some (buf[k]) := List.getElem?_eq_getElem (by omega)
    simp only [hb] at hcontra
    by_cases hv : buf[k] = 0
    · rw [if_neg (show ¬(buf[k] ≠ 0) by omega)] at hcontra
      exact ih g (k + 1) (row + 2) (by omega) hcontra
    · rw [if_pos hv] at hcontra
      cases hsq : squares[buf[k] - 1]? with
      | none => simp [hsq] at hcontra
      | some sq =>
        simp only [hsq] at hcontra
        cases hw : writeSquare g col row sq with
        | none => simp [hw] at hcontra
        | some g1 =>
          simp only [hw] at hcontra
          exact ih g1 (k + 1) (row + 2) (by omega) hcontra

theorem parseMiniCols_ne_bufIdx {squares : List Square} (buf : List Nat) (rowCount : Nat)
    (g : Grid) (k col j : Nat) (hlen : k + rowCount * j ≤ buf.length) :
    parseMiniCols squares buf rowCount g k col j ≠ .error (.crash .bufIdx) := by
  induction j generalizing g k col with
  | zero => simp [parseMiniCols]
  | succ j ih =>
    have hmul : rowCount * (j + 1) = rowCount * j + rowCount := by ring
    intro hcontra
    simp only [parseMiniCols] at hcontra
    cases hcol : parseMiniCol squares buf g k col 0 rowCount with
    | error e =>
      simp only [hcol] at hcontra
      cases hcontra
      exact parseMiniCol_ne_bufIdx buf g k col 0 rowCount (by omega) hcol
    | ok gk =>
      obtain ⟨g1, k1⟩ := gk
      simp only [hcol] at hcontra
      obtain ⟨hk1, _, _, _⟩ := parseMiniCol_ok hcol
      subst hk1
      exact ih g1 (k + rowCount) (col + 2) (by omega) hcontra

theorem parseMiniCol_ne_squareIdx {squares : List Square} (buf : List Nat) (g : Grid)
    (k col row i : Nat)
    (hids : ∀ v, v ∈ buf → v ≠ 0 → v - 1 < squares.length) :
    parseMiniCol squares buf g k col row i ≠ .error (.crash .squareIdx) := by
  induction i generalizing g k row with
  | zero => simp [parseMiniCol]
  | succ i ih =>
    intro hcontra
    simp only [parseMiniCol] at hcontra
    cases hb : buf[k]? with
    | none => simp [hb] at hcontra
    | some v =>
      simp only [hb] at hcontra
      by_cases hv : v = 0
      · rw [if_neg (show ¬(v ≠ 0) by omega)] at hcontra
        exact ih g (k + 1) (row + 2) hcontra
      · rw [if_pos hv] at hcontra
        have hidv : v - 1 < squares.length := hids v (mem_of_getElem hb) hv
        rw [List.getElem?_eq_getElem hidv] at hcontra
        cases hw : writeSquare g col row (squares[v - 1]) with
        | none => simp [hw] at hcontra
        | some g1 =>
          simp only [hw] at hcontra
          exact ih g1 (k + 1) (row + 2) hcontra

theorem parseMiniCols_ne_squareIdx {squares : List Square} (buf : List Nat)
    (rowCount : Nat) (g : Grid) (k col j : Nat)
    (hids : ∀ v, v ∈ buf → v ≠ 0 → v - 1 < squares.length) :
    parseMiniCols squares buf rowCount g k col j ≠ .error (.crash .squareIdx) := by
  induction j generalizing g k col with
  | zero => simp [parseMiniCols]
  | succ j ih =>
    intro hcontra
    simp only [parseMiniCols] at hcontra
    cases hcol : parseMiniCol squares buf g k col 0 rowCount with
    | error e =>
      simp only [hcol] at hcontra
      cases hcontra
      exact parseMiniCol_ne_squareIdx buf g k col 0 rowCount hids hcol
    | ok gk =>
      obtain ⟨g1, k1⟩ := gk
      simp only [hcol] at hcontra
      exact ih g1 k1 (col + 2) hcontra

/-! ### Preservation and sufficiency for the square plane -/

theorem gridSet_pres {g : Grid} {c r : Nat} {key : String} {v : Int} {g' : Grid}
    (h : gridSet g c r key v = some g') (key' : String) (hk : key' ≠ key) :
    ∀ c1 r1, attrGet (g' c1 r1) key' = attrGet (g c1 r1) key' := by
  intro c1 r1
  by_cases hc : c1 = c ∧ r1 = r
  · obtain ⟨rfl, rfl⟩ := hc
    rw [gridSet_self h]
    exact attrGet_attrSet_ne _ _ _ _ (Ne.symm hk)
  · rw [gridSet_other h hc]

theorem writeSquare_pres {g : Grid} {col row : Nat} {sq : Square} {g' : Grid}
    (h : writeSquare g col row sq = some g') (key' : String) (hk : key' ≠ "pillarNum") :
    ∀ c r, attrGet (g' c r) key' = attrGet (g c r) key' := by
  unfold writeSquare at h
  cases e1 : gridSet g col row "pillarNum" sq.pillarNumTop with
  | none => rw [e1, Option.none_bind] at h; cases h
  | some g1 =>
    rw [e1, Option.some_bind] at h
    cases e2 : gridSet g1 (col + 1) row "pillarNum" sq.pillarNumRight with
    | none => rw [e2, Option.none_bind] at h; cases h
    | some g2 =>
      rw [e2, Option.some_bind] at h
      cases e3 : gridSet g2 col (row + 1) "pillarNum" sq.pillarNumLeft with
      | none => rw [e3, Option.none_bind] at h; cases h
      | some g3 =>
        rw [e3, Option.some_bind] at h
        intro c r
        rw [gridSet_pres h key' hk c r, gridSet_pres e3 key' hk c r,
          gridSet_pres e2 key' hk c r, gridSet_pres e1 key' hk c r]

theorem parseSqRow_preserves {squares : List Square} {g : Grid} {s : List Nat}
    {col row j : Nat} {g' : Grid} {s' : List Nat}
    (h : parseSqRow squares g s col row j = .ok (g', s')) (key' : String)
    (hk : key' ≠ "pillarNum") :
    ∀ c r, attrGet (g' c r) key' = attrGet (g c r) key' := by
  induction j generalizing g s col g' s' with
  | zero =>
    simp only [parseSqRow, Except.ok.injEq, Prod.mk.injEq] at h
    obtain ⟨rfl, rfl⟩ := h
    intro c r
    rfl
  | succ j ih =>
    simp only [parseSqRow] at h
    cases hr : read16 s with
    | error e => rw [hr] at h; cases h
    | ok vs =>
      obtain ⟨v, s1⟩ := vs
      simp only [hr] at h
      by_cases hv : v = 0
      · rw [if_neg (show ¬(v ≠ 0) by omega)] at h
        exact ih h
      · rw [if_pos hv] at h
        cases hsq : squares[v - 1]? with
        | none => simp [hsq] at h
        | some sq =>
          simp only [hsq] at h
          cases hw : writeSquare g col row sq with
          | none => simp [hw] at h
          | some g1 =>
            simp only [hw] at h
            intro c r
            rw [ih h c r, writeSquare_pres hw key' hk c r]

theorem parseSqRows_preserves {squares : List Square} {qw colStart : Nat} {g : Grid}
    {s : List Nat} {row i : Nat} {g' : Grid} {s' : List Nat}
    (h : parseSqRows squares qw colStart g s row i = .ok (g', s')) (key' : String)
    (hk : key' ≠ "pillarNum") :
    ∀ c r, attrGet (g' c r) key' = attrGet (g c r) key' := by
  induction i generalizing g s row g' s' with
  | zero =>
    simp only [parseSqRows, Except.ok.injEq, Prod.mk.injEq] at h
    obtain ⟨rfl, rfl⟩ := h
    intro c r
    rfl
  | succ i ih =>
    simp only [parseSqRows] at h
    cases hrow : parseSqRow squares g s colStart row qw with
    | error e => rw [hrow] at h; cases h
    | ok gs =>
      obtain ⟨g1, s1⟩ := gs
      simp only [hrow] at h
      intro c r
      rw [ih h c r, parseSqRow_preserves hrow key' hk c r]

theorem parseSqRow_succeeds {squares : List Square} (g : Grid) (s : List Nat)
    (col row j : Nat) (hlen : 2 * j ≤ s.length)
    (hids : ∀ t, t < j → val16 s t ≠ 0 → val16 s t - 1 < squares.length)
    (hb : col + 2 * j ≤ ColMax) (hrow : row + 2 ≤ RowMax) :
    ∃ g', parseSqRow squares g s col row j = .ok (g', s.drop (2 * j)) := by
  induction j generalizing g s col with
  | zero => exact ⟨g, by simp [parseSqRow]⟩
  | succ j ih =>
    have hr : read16 s = .ok (val16 s 0, s.drop 2) := read16_of_len (by omega)
    have hdlen : (s.drop 2).length = s.length - 2 := by simp
    have hsh : ∀ u, val16 (s.drop 2) u = val16 s (1 + u) := by
      intro u
      rw [show (2 : Nat) = 2 * 1 by omega, val16_drop]
    have hids' : ∀ t, t < j → val16 (s.drop 2) t ≠ 0 →
        val16 (s.drop 2) t - 1 < squares.length := by
      intro t ht
      rw [hsh]
      exact hids (1 + t) (by omega)
    by_cases hv : val16 s 0 = 0
    · obtain ⟨g', hrec⟩ := ih g (s.drop 2) (col + 2) (by omega) hids' (by omega)
      rw [List.drop_drop] at hrec
      refine ⟨g', ?_⟩
      rw [show 2 * (j + 1) = 2 + 2 * j by omega]
      simp only [parseSqRow, hr]
      rw [if_neg (by omega)]
      exact hrec
    · have hidv : val16 s 0 - 1 < squares.length := hids 0 (by omega) hv
      obtain ⟨g1, hw⟩ := writeSquare_isSome g col row (squares[val16 s 0 - 1])
        (by omega) (by omega)
      obtain ⟨g', hrec⟩ := ih g1 (s.drop 2) (col + 2) (by omega) hids' (by omega)
      rw [List.drop_drop] at hrec
      refine ⟨g', ?_⟩
      rw [show 2 * (j + 1) = 2 + 2 * j by omega]
      simp only [parseSqRow, hr]
      rw [if_pos hv]
      rw [List.getElem?_eq_getElem hidv]
      simp only [hw]
      exact hrec

theorem parseSqRows_succeeds {squares : List Square} (qw colStart : Nat) (g : Grid)
    (s : List Nat) (row i : Nat) (hlen : 2 * (qw * i) ≤ s.length)
    (hids : ∀ k, k < qw * i → val16 s k ≠ 0 → val16 s k - 1 < squares.length)
    (hb : colStart + 2 * qw ≤ ColMax) (hrow : row + 2 * i ≤ RowMax) :
    ∃ g', parseSqRows squares qw colStart g s row i = .ok (g', s.drop (2 * (qw * i))) := by
  induction i generalizing g s row with
  | zero => exact ⟨g, by simp [parseSqRows]⟩
  | succ i ih =>
    have hmul : qw * (i + 1) = qw * i + qw := by ring
    obtain ⟨g1, hrow1⟩ := parseSqRow_succeeds g s colStart row qw (by omega)
      (fun t ht => hids t (by omega)) hb (by omega)
    have hdlen : (s.drop (2 * qw)).length = s.length - 2 * qw := by simp
    have hsh : ∀ u, val16 (s.drop (2 * qw)) u = val16 s (qw + u) := by
      intro u
      rw [val16_drop]
    obtain ⟨g', hrec⟩ := ih g1 (s.drop (2 * qw)) (row + 2) (by omega)
      (fun k hk => by rw [hsh]; exact hids (qw + k) (by omega)) (by omega)
    rw [List.drop_drop] at hrec
    refine ⟨g', ?_⟩
    rw [show 2 * (qw * (i + 1)) = 2 * qw + 2 * (qw * i) by ring]
    simp only [parseSqRows, hrow1]
    exact hrec

/-! ### Claims C1 (amended), C8, C9 -/

/-- Claim C1 (amended): in both parse variants an out-of-range square index
does not yield a returned `FormatError`; it crashes with the runtime
index-out-of-range panic of the unchecked square-table access.  In the
full-stream variant, if the first non-zero square-id-plus-1 value decremented
by 1 is at or beyond the square-table length, the parse outcome is the
square-index panic; when every non-zero id is in range, no such panic
occurs (every lookup succeeds).  The fixed-size variant behaves the same. -/
theorem dun_C1_amended :
    (∀ (squares : List Square) (colStart rowStart : Nat) (g0 : Grid) (s : List Nat)
       (qw qh : Nat) (s1 : List Nat) (k : Nat),
      readHeader s = .ok (qw, qh, s1) → k < qw * qh →
      (∀ u, u < k → val16 s1 u = 0) → 2 * (k + 1) ≤ s1.length →
      val16 s1 k ≠ 0 → squares.length ≤ val16 s1 k - 1 →
      Parse squares colStart rowStart g0 s = .error (.crash .squareIdx)) ∧
    (∀ (squares : List Square) (colStart rowStart : Nat) (g0 : Grid) (s : List Nat)
       (qw qh : Nat) (s1 : List Nat),
      readHeader s = .ok (qw, qh, s1) →
      (∀ k, k < qw * qh → val16 s1 k ≠ 0 → val16 s1 k - 1 < squares.length) →
      Parse squares colStart rowStart g0 s ≠ .error (.crash .squareIdx)) ∧
    (∀ (squares : List Square) (g0 : Grid) (buf : List Nat) (colCount rowCount m v : Nat),
      m < colCount * rowCount → (∀ u, u < m → buf[u]? = some 0) →
      buf[m]? = some v → v ≠ 0 → squares.length ≤ v - 1 →
      ParseMini squares g0 buf colCount rowCount = .error (.crash .squareIdx)) ∧
    (∀ (squares : List Square) (g0 : Grid) (buf : List Nat) (colCount rowCount : Nat),
      (∀ v, v ∈ buf → v ≠ 0 → v - 1 < squares.length) →
      ParseMini squares g0 buf colCount rowCount ≠ .error (.crash .squareIdx)) := by
  refine ⟨?_, ?_, ?_, ?_⟩
  · intro squares colStart rowStart g0 s qw qh s1 k hq hk hz hlen hv hid
    exact Parse_squareCrash k hq hk hz hlen hv hid
  · intro squares colStart rowStart g0 s qw qh s1 hq hids
    exact Parse_ne_squareIdx hq hids
  · intro squares g0 buf colCount rowCount m v hm hz hbv hv hid
    have hcr := parseMiniCols_squareCrash buf g0 0 0 rowCount colCount m
      (by rw [Nat.mul_comm]; exact hm)
      (fun u hu => by simpa using hz u hu)
      (by simpa using hbv) hv hid
    unfold ParseMini
    simp only [hcr]
  · intro squares g0 buf colCount rowCount hids
    intro hcontra
    unfold ParseMini at hcontra
    cases hc : parseMiniCols squares buf rowCount g0 0 0 colCount with
    | error e =>
      simp only [hc] at hcontra
      cases hcontra
      exact parseMiniCols_ne_squareIdx buf rowCount g0 0 0 colCount hids hc
    | ok gk =>
      obtain ⟨g1, k1⟩ := gk
      simp only [hc] at hcontra
      cases hcontra

/-- Claim C1 amended witness: an empty square table and a first value of 1
(square index 0) crash the full-stream parse with the square-index panic. -/
theorem dun_C1_amended_witness :
    Parse [] 3 4 emptyGrid [1, 0, 1, 0, 1, 0] = .error (.crash .squareIdx) :=
  dun_C1_amended.1 [] 3 4 emptyGrid [1, 0, 1, 0, 1, 0] 1 1 [1, 0] 0 rfl (by omega)
    (fun u hu => by omega) (by decide) (by decide) (by decide)

/-- Claim C8: the full-stream parse writes square blocks with no bounds
check.  If the first non-zero square id (with in-range square index) falls in
a block whose cells exceed the 112×112 grid, the outcome is the runtime
index-out-of-range panic of the grid write, not a returned error; and under
the precondition `colStart + 2*quadWidth ≤ 112 ∧ rowStart + 2*quadHeight ≤
112` the parse never produces a grid-bounds panic (every grid write in every
plane is in bounds). -/
theorem dun_C8 :
    (∀ (squares : List Square) (colStart rowStart : Nat) (g0 : Grid) (s : List Nat)
       (qw qh : Nat) (s1 : List Nat) (k : Nat),
      readHeader s = .ok (qw, qh, s1) → k < qw * qh →
      (∀ u, u < k → val16 s1 u = 0) → 2 * (k + 1) ≤ s1.length →
      val16 s1 k ≠ 0 → val16 s1 k - 1 < squares.length →
      ¬(colStart + 2 * (k % qw) + 1 < ColMax ∧ rowStart + 2 * (k / qw) + 1 < RowMax) →
      Parse squares colStart rowStart g0 s = .error (.crash .gridIdx)) ∧
    (∀ (squares : List Square) (colStart rowStart : Nat) (g0 : Grid) (s : List Nat)
       (qw qh : Nat) (s1 : List Nat),
      readHeader s = .ok (qw, qh, s1) →
      colStart + 2 * qw ≤ ColMax → rowStart + 2 * qh ≤ RowMax →
      Parse squares colStart rowStart g0 s ≠ .error (.crash .gridIdx)) := by
  constructor
  · intro squares colStart rowStart g0 s qw qh s1 k hq hk hz hlen hv hid hoob
    exact Parse_gridCrash k hq hk hz hlen hv hid hoob
  · intro squares colStart rowStart g0 s qw qh s1 hq hb hrow
    exact Parse_ne_gridIdx hq hb hrow

/-- Claim C8 witness: with `colStart = 111` and a 1×1 square plane the block
at `(111, 0)` writes column 112 and the parse crashes with the grid-bounds
panic; the panic is the out-of-range write, not a returned error. -/
theorem dun_C8_witness :
    Parse [⟨1, 2, 3, 4⟩] 111 0 emptyGrid [1, 0, 1, 0, 1, 0] = .error (.crash .gridIdx) :=
  dun_C8.1 [⟨1, 2, 3, 4⟩] 111 0 emptyGrid [1, 0, 1, 0, 1, 0] 1 1 [1, 0] 0 rfl (by omega)
    (fun u hu => by omega) (by decide) (by decide) (by decide) (by decide)

/-- Claim C9: the fixed-size variant reads `colCount*rowCount` buffer
elements with no length check: a shorter buffer makes the parse end in a
runtime index-out-of-range panic (never a returned error value), and with a
long-enough buffer no buffer-index panic can occur. -/
theorem dunmini_C9 :
    (∀ (squares : List Square) (g0 : Grid) (buf : List Nat) (colCount rowCount : Nat),
      buf.length < colCount * rowCount →
      ∃ p, ParseMini squares g0 buf colCount rowCount = .error (.crash p)) ∧
    (∀ (squares : List Square) (g0 : Grid) (buf : List Nat) (colCount rowCount : Nat),
      colCount * rowCount ≤ buf.length →
      ParseMini squares g0 buf colCount rowCount ≠ .error (.crash .bufIdx)) := by
  constructor
  · intro squares g0 buf colCount rowCount hlen
    cases hc : parseMiniCols squares buf rowCount g0 0 0 colCount with
    | ok gk =>
      exfalso
      obtain ⟨g1, k1⟩ := gk
      obtain ⟨_, ilt, _, _⟩ := parseMiniCols_ok hc
      have := ilt buf.length (by rw [Nat.mul_comm]; exact hlen)
      omega
    | error e =>
      obtain ⟨p, rfl⟩ := parseMiniCols_err hc
      refine ⟨p, ?_⟩
      unfold ParseMini
      simp only [hc]
  · intro squares g0 buf colCount rowCount hlen
    intro hcontra
    unfold ParseMini at hcontra
    cases hc : parseMiniCols squares buf rowCount g0 0 0 colCount with
    | error e =>
      simp only [hc] at hcontra
      cases hcontra
      refine parseMiniCols_ne_bufIdx buf rowCount g0 0 0 colCount ?_ hc
      rw [Nat.mul_comm]
      omega
    | ok gk =>
      obtain ⟨g1, k1⟩ := gk
      simp only [hc] at hcontra
      cases hcontra

/-- Claim C9 witness: an empty buffer with a 1×1 request panics. -/
theorem dunmini_C9_witness :
    ∃ p, ParseMini [] emptyGrid [] 1 1 = .error (.crash p) :=
  dunmini_C9.1 [] emptyGrid [] 1 1 (by decide)

/-- Claim C3: in both variants, a successful parse from a fresh grid of a
square-id plane whose only non-zero value sits at flat index `k` (value `S`)
populates `pillarNum` in exactly the four cells of the corresponding 2×2
block — top, right, left, bottom of square `S-1` — and every other cell has
no `pillarNum` attribute at all. -/
theorem dun_C3 :
    (∀ (squares : List Square) (colStart rowStart : Nat) (s : List Nat) (g : Grid)
       (qw qh : Nat) (s1 : List Nat) (k : Nat),
      readHeader s = .ok (qw, qh, s1) →
      Parse squares colStart rowStart emptyGrid s = .ok g →
      k < qw * qh → val16 s1 k ≠ 0 →
      (∀ u, u < qw * qh → u ≠ k → val16 s1 u = 0) →
      ∃ sq, squares[val16 s1 k - 1]? = some sq ∧
        attrGet (g (colStart + 2 * (k % qw)) (rowStart + 2 * (k / qw))) "pillarNum"
          = some sq.pillarNumTop ∧
        attrGet (g (colStart + 2 * (k % qw) + 1) (rowStart + 2 * (k / qw))) "pillarNum"
          = some sq.pillarNumRight ∧
        attrGet (g (colStart + 2 * (k % qw)) (rowStart + 2 * (k / qw) + 1)) "pillarNum"
          = some sq.pillarNumLeft ∧
        attrGet (g (colStart + 2 * (k % qw) + 1) (rowStart + 2 * (k / qw) + 1)) "pillarNum"
          = some sq.pillarNumBottom ∧
        ∀ c r, ¬((c = colStart + 2 * (k % qw) ∨ c = colStart + 2 * (k % qw) + 1) ∧
                 (r = rowStart + 2 * (k / qw) ∨ r = rowStart + 2 * (k / qw) + 1)) →
          attrGet (g c r) "pillarNum" = none) ∧
    (∀ (squares : List Square) (buf : List Nat) (colCount rowCount : Nat) (g : Grid)
       (k v : Nat),
      ParseMini squares emptyGrid buf colCount rowCount = .ok g →
      k < colCount * rowCount → buf[k]? = some v → v ≠ 0 →
      (∀ u, u < colCount * rowCount → u ≠ k → buf[u]? = some 0) →
      ∃ sq, squares[v - 1]? = some sq ∧
        attrGet (g (2 * (k / rowCount)) (2 * (k % rowCount))) "pillarNum"
          = some sq.pillarNumTop ∧
        attrGet (g (2 * (k / rowCount) + 1) (2 * (k % rowCount))) "pillarNum"
          = some sq.pillarNumRight ∧
        attrGet (g (2 * (k / rowCount)) (2 * (k % rowCount) + 1)) "pillarNum"
          = some sq.pillarNumLeft ∧
        attrGet (g (2 * (k / rowCount) + 1) (2 * (k % rowCount) + 1)) "pillarNum"
          = some sq.pillarNumBottom ∧
        ∀ c r, ¬((c = 2 * (k / rowCount) ∨ c = 2 * (k / rowCount) + 1) ∧
                 (r = 2 * (k % rowCount) ∨ r = 2 * (k % rowCount) + 1)) →
          attrGet (g c r) "pillarNum" = none) := by
  constructor
  · intro squares colStart rowStart s g qw qh s1 k hq h hk hv huniq
    obtain ⟨g1, s2, hsq, hpl⟩ := Parse_ok_elim hq h
    obtain ⟨slen, sdrop, sframe, szero, snz⟩ := parseSqRows_ok hsq
    obtain ⟨pframe, ppres⟩ := parsePlanes_ok hpl
    obtain ⟨sq, hsqv, hcell⟩ := snz k hk hv
    have hqwpos : 0 < qw := by
      rcases Nat.eq_zero_or_pos qw with h0 | h0
      · subst h0; simp at hk
      · exact h0
    have hmodlt : k % qw < qw := Nat.mod_lt k hqwpos
    have hdivlt : k / qw < qh := Nat.div_lt_of_lt_mul hk
    have hfour : ∀ dc dr, dc ≤ 1 → dr ≤ 1 →
        attrGet (g (colStart + 2 * (k % qw) + dc) (rowStart + 2 * (k / qw) + dr)) "pillarNum"
          = some (corner sq dc dr) := by
      intro dc dr hdc hdr
      rw [ppres, hcell dc dr hdc hdr]
      exact attrGet_attrSet_self _ _ _
    have h00 := hfour 0 0 (by omega) (by omega)
    have h10 := hfour 1 0 (by omega) (by omega)
    have h01 := hfour 0 1 (by omega) (by omega)
    have h11 := hfour 1 1 (by omega) (by omega)
    simp only [Nat.add_zero] at h00 h10 h01 h11
    refine ⟨sq, hsqv, h00, h10, h01, h11, ?_⟩
    intro c r hnot
    rw [ppres]
    by_cases hin : colStart ≤ c ∧ c < colStart + 2 * qw ∧ rowStart ≤ r ∧ r < rowStart + 2 * qh
    · obtain ⟨hc1, hc2, hr1, hr2⟩ := hin
      have ha : (c - colStart) / 2 < qw := by omega
      have hb : (r - rowStart) / 2 < qh := by omega
      have hql : ((r - rowStart) / 2 + 1) * qw = ((r - rowStart) / 2) * qw + qw := by ring
      have h2 : ((r - rowStart) / 2 + 1) * qw ≤ qh * qw :=
        Nat.mul_le_mul_right qw (by omega)
      have hu : ((r - rowStart) / 2) * qw + (c - colStart) / 2 < qw * qh := by
        rw [Nat.mul_comm qh qw] at h2
        omega
      have hmod : (((r - rowStart) / 2) * qw + (c - colStart) / 2) % qw = (c - colStart) / 2 := by
        rw [Nat.mul_comm ((r - rowStart) / 2) qw, Nat.mul_add_mod]
        exact Nat.mod_eq_of_lt ha
      have hdiv : (((r - rowStart) / 2) * qw + (c - colStart) / 2) / qw = (r - rowStart) / 2 := by
        rw [Nat.mul_comm ((r - rowStart) / 2) qw, Nat.mul_add_div hqwpos,
          Nat.div_eq_of_lt ha, Nat.add_zero]
      by_cases huk : ((r - rowStart) / 2) * qw + (c - colStart) / 2 = k
      · exfalso
        rw [huk] at hmod hdiv
        refine hnot ⟨?_, ?_⟩ <;> omega
      · have hzero := huniq _ hu huk
        have hcz := szero _ hu hzero ((c - colStart) % 2) ((r - rowStart) % 2)
          (by omega) (by omega)
        rw [hmod, hdiv] at hcz
        rw [show colStart + 2 * ((c - colStart) / 2) + (c - colStart) % 2 = c by omega,
          show rowStart + 2 * ((r - rowStart) / 2) + (r - rowStart) % 2 = r by omega] at hcz
        rw [hcz]
        rfl
    · rw [sframe c r (by omega)]
      rfl
  · intro squares buf colCount rowCount g k v h hk hbv hv huniq
    obtain ⟨k', hcols⟩ := ParseMini_ok_elim h
    obtain ⟨hkk, mlt, mframe, midx⟩ := parseMiniCols_ok hcols
    have hbv0 : buf[0 + k]? = some v := by simpa using hbv
    obtain ⟨_, hnz⟩ := midx k (by rw [Nat.mul_comm]; exact hk) v hbv0
    obtain ⟨sq, hsqv, hcell⟩ := hnz hv
    have hrcpos : 0 < rowCount := by
      rcases Nat.eq_zero_or_pos rowCount with h0 | h0
      · subst h0; simp at hk
      · exact h0
    have hmodlt : k % rowCount < rowCount := Nat.mod_lt k hrcpos
    have hdivlt : k / rowCount < colCount :=
      Nat.div_lt_of_lt_mul (by rw [Nat.mul_comm]; exact hk)
    have hfour : ∀ dc dr, dc ≤ 1 → dr ≤ 1 →
        attrGet (g (2 * (k / rowCount) + dc) (2 * (k % rowCount) + dr)) "pillarNum"
          = some (corner sq dc dr) := by
      intro dc dr hdc hdr
      have h1 := hcell dc dr hdc hdr
      rw [show (0 : Nat) + 2 * (k / rowCount) + dc = 2 * (k / rowCount) + dc by omega] at h1
      rw [h1]
      exact attrGet_attrSet_self _ _ _
    have h00 := hfour 0 0 (by omega) (by omega)
    have h10 := hfour 1 0 (by omega) (by omega)
    have h01 := hfour 0 1 (by omega) (by omega)
    have h11 := hfour 1 1 (by omega) (by omega)
    simp only [Nat.add_zero] at h00 h10 h01 h11
    refine ⟨sq, hsqv, h00, h10, h01, h11, ?_⟩
    intro c r hnot
    by_cases hin : c < 2 * colCount ∧ r < 2 * rowCount
    · obtain ⟨hc2, hr2⟩ := hin
      have ha : c / 2 < colCount := by omega
      have hb : r / 2 < rowCount := by omega
      have hql : (c / 2 + 1) * rowCount = (c / 2) * rowCount + rowCount := by ring
      have h2 : (c / 2 + 1) * rowCount ≤ colCount * rowCount :=
        Nat.mul_le_mul_right rowCount (by omega)
      have hu : (c / 2) * rowCount + r / 2 < rowCount * colCount := by
        rw [Nat.mul_comm colCount rowCount] at h2
        omega
      have hmod : ((c / 2) * rowCount + r / 2) % rowCount = r / 2 := by
        rw [Nat.mul_comm (c / 2) rowCount, Nat.mul_add_mod]
        exact Nat.mod_eq_of_lt hb
      have hdiv : ((c / 2) * rowCount + r / 2) / rowCount = c / 2 := by
        rw [Nat.mul_comm (c / 2) rowCount, Nat.mul_add_div hrcpos,
          Nat.div_eq_of_lt hb, Nat.add_zero]
      by_cases huk : (c / 2) * rowCount + r / 2 = k
      · exfalso
        rw [huk] at hmod hdiv
        refine hnot ⟨?_, ?_⟩ <;> omega
      · have hzero : buf[(c / 2) * rowCount + r / 2]? = some 0 :=
          huniq _ (by rw [Nat.mul_comm rowCount colCount] at hu; exact hu) huk
        have hbz : buf[0 + ((c / 2) * rowCount + r / 2)]? = some 0 := by simpa using hzero
        obtain ⟨hz, _⟩ := midx _ hu 0 hbz
        have hcz := hz rfl (c % 2) (r % 2) (by omega) (by omega)
        rw [hmod, hdiv] at hcz
        rw [show (0 : Nat) + 2 * (c / 2) + c % 2 = c by omega,
          show 2 * (r / 2) + r % 2 = r by omega] at hcz
        rw [hcz]
        rfl
    · rw [mframe c r (by omega)]
      rfl

/-- Claim C2 amended witness: the theorem's full-stream part at a concrete
1×1 plane whose only value is square-id-plus-1 = 1. -/
theorem dun_C2_amended_witness :
    ∃ sq, ([⟨7, 8, 9, 10⟩] : List Square)[val16 [1, 0] 0 - 1]? = some sq ∧
      ∀ dc dr, dc ≤ 1 → dr ≤ 1 →
        attrGet (okGrid (Parse [⟨7, 8, 9, 10⟩] 0 0 emptyGrid [1, 0, 1, 0, 1, 0])
            (0 + 2 * (0 % 1) + dc) (0 + 2 * (0 / 1) + dr)) "pillarNum"
          = some (corner sq dc dr) :=
  dun_C2_amended.1 [⟨7, 8, 9, 10⟩] 0 0 emptyGrid [1, 0, 1, 0, 1, 0]
    (okGrid (Parse [⟨7, 8, 9, 10⟩] 0 0 emptyGrid [1, 0, 1, 0, 1, 0])) 1 1 [1, 0] 0
    rfl rfl (by omega) (by decide)

/-- Claim C3 witness: the theorem's full-stream part at a concrete 1×1 plane;
exactly the four block cells carry the square's pillar indices. -/
theorem dun_C3_witness :
    ∃ sq, ([⟨7, 8, 9, 10⟩] : List Square)[val16 [1, 0] 0 - 1]? = some sq ∧
      attrGet (okGrid (Parse [⟨7, 8, 9, 10⟩] 0 0 emptyGrid [1, 0, 1, 0, 1, 0]) 0 0)
        "pillarNum" = some sq.pillarNumTop ∧
      attrGet (okGrid (Parse [⟨7, 8, 9, 10⟩] 0 0 emptyGrid [1, 0, 1, 0, 1, 0]) 1 0)
        "pillarNum" = some sq.pillarNumRight ∧
      attrGet (okGrid (Parse [⟨7, 8, 9, 10⟩] 0 0 emptyGrid [1, 0, 1, 0, 1, 0]) 0 1)
        "pillarNum" = some sq.pillarNumLeft ∧
      attrGet (okGrid (Parse [⟨7, 8, 9, 10⟩] 0 0 emptyGrid [1, 0, 1, 0, 1, 0]) 1 1)
        "pillarNum" = some sq.pillarNumBottom ∧
      ∀ c r, ¬((c = 0 ∨ c = 0 + 1) ∧ (r = 0 ∨ r = 0 + 1)) →
        attrGet (okGrid (Parse [⟨7, 8, 9, 10⟩] 0 0 emptyGrid [1, 0, 1, 0, 1, 0]) c r)
          "pillarNum" = none :=
  dun_C3.1 [⟨7, 8, 9, 10⟩] 0 0 [1, 0, 1, 0, 1, 0]
    (okGrid (Parse [⟨7, 8, 9, 10⟩] 0 0 emptyGrid [1, 0, 1, 0, 1, 0])) 1 1 [1, 0] 0
    rfl rfl (by omega) (by decide) (fun u hu hne => by omega)

/-! ### Claim C4: EOF behaviour at and inside the trailing planes -/

theorem parsePlane_empty (key : String) (g : Grid) (cs rs w h : Nat)
    (hw : w ≠ 0) (hh : h ≠ 0) :
    parsePlane key g [] cs rs w h = .ok (.done g) := by
  unfold parsePlane
  rw [if_neg (by omega), if_pos rfl]

theorem parsePlane_run (key : String) (g : Grid) (s : List Nat) (cs rs w h : Nat)
    (hw : w ≠ 0) (hh : h ≠ 0) (hs : s ≠ [])
    (hlen : 2 * (w * h) ≤ s.length) (hb : cs + w ≤ ColMax) (hrow : rs + h ≤ RowMax) :
    ∃ g1, parsePlane key g s cs rs w h = .ok (.next g1 (s.drop (2 * (w * h)))) ∧
      ∀ key', key' ≠ key → ∀ c r, attrGet (g1 c r) key' = attrGet (g c r) key' := by
  obtain ⟨g1, hrun⟩ := planeRows_succeeds w cs g s rs h hlen hb hrow
  obtain ⟨_, _, _, hpres⟩ := planeRows_ok hrun
  refine ⟨g1, ?_, hpres⟩
  unfold parsePlane
  rw [if_neg (by omega), if_neg hs]
  simp only [hrun]

theorem parsePlane_err (key : String) (g : Grid) (s : List Nat) (cs rs w h : Nat)
    (hw : w ≠ 0) (hh : h ≠ 0) (hs : s ≠ [])
    (hlen : s.length < 2 * (w * h)) (hb : cs + w ≤ ColMax) (hrow : rs + h ≤ RowMax) :
    ∃ e, parsePlane key g s cs rs w h = .error (.ioErr e) := by
  obtain ⟨e, hrun⟩ := planeRows_fails w cs g s rs h hlen hb hrow
  refine ⟨e, ?_⟩
  unfold parsePlane
  rw [if_neg (by omega), if_neg hs, hrun]

theorem drop_ne_nil_of_lt {s : List Nat} {n : Nat} (h : n < s.length) : s.drop n ≠ [] := by
  intro h0
  have := congrArg List.length h0
  simp at this
  omega

/-- Claim C4: with a well-formed header and square plane (non-degenerate
sizes, in-range square ids, blocks in bounds), end-of-input exactly at the
start of any of the four trailing planes makes the full-stream parse succeed
with the attributes written so far (the keys of the unread planes are absent
everywhere); end-of-input at any other offset within the four planes makes
it return an error, never a successful result. -/
theorem dun_C4 (squares : List Square) (colStart rowStart : Nat) (s : List Nat)
    (qw qh : Nat) (s1 : List Nat)
    (hq : readHeader s = .ok (qw, qh, s1)) (hqw : 0 < qw) (hqh : 0 < qh)
    (hb : colStart + 2 * qw ≤ ColMax) (hrow : rowStart + 2 * qh ≤ RowMax)
    (hids : ∀ k, k < qw * qh → val16 s1 k ≠ 0 → val16 s1 k - 1 < squares.length) :
    (s1.length = 2 * (qw * qh) →
      ∃ g, Parse squares colStart rowStart emptyGrid s = .ok g ∧
        ∀ c r, attrGet (g c r) "unknown" = none ∧ attrGet (g c r) "dunMonsterID" = none ∧
          attrGet (g c r) "dunObjectID" = none ∧ attrGet (g c r) "transparency" = none) ∧
    (s1.length = 2 * (qw * qh) + 1 * (2 * (2 * qw * (2 * qh))) →
      ∃ g, Parse squares colStart rowStart emptyGrid s = .ok g ∧
        ∀ c r, attrGet (g c r) "dunMonsterID" = none ∧
          attrGet (g c r) "dunObjectID" = none ∧ attrGet (g c r) "transparency" = none) ∧
    (s1.length = 2 * (qw * qh) + 2 * (2 * (2 * qw * (2 * qh))) →
      ∃ g, Parse squares colStart rowStart emptyGrid s = .ok g ∧
        ∀ c r, attrGet (g c r) "dunObjectID" = none ∧
          attrGet (g c r) "transparency" = none) ∧
    (s1.length = 2 * (qw * qh) + 3 * (2 * (2 * qw * (2 * qh))) →
      ∃ g, Parse squares colStart rowStart emptyGrid s = .ok g ∧
        ∀ c r, attrGet (g c r) "transparency" = none) ∧
    (2 * (qw * qh) ≤ s1.length →
      s1.length < 2 * (qw * qh) + 4 * (2 * (2 * qw * (2 * qh))) →
      s1.length ≠ 2 * (qw * qh) →
      s1.length ≠ 2 * (qw * qh) + 1 * (2 * (2 * qw * (2 * qh))) →
      s1.length ≠ 2 * (qw * qh) + 2 * (2 * (2 * qw * (2 * qh))) →
      s1.length ≠ 2 * (qw * qh) + 3 * (2 * (2 * qw * (2 * qh))) →
      ∃ e, Parse squares colStart rowStart emptyGrid s = .error (.ioErr e)) := by
  have hp : 0 < 2 * qw * (2 * qh) := Nat.mul_pos (by omega) (by omega)
  have hplane : 2 * (2 * qw * (2 * qh)) = 2 * (2 * qw * (2 * qh)) := rfl
  refine ⟨?_, ?_, ?_, ?_, ?_⟩
  · intro hlen
    obtain ⟨g1, hsq⟩ := parseSqRows_succeeds qw colStart emptyGrid s1 rowStart qh
      (by omega) hids hb hrow
    have hs2 : s1.drop (2 * (qw * qh)) = [] := List.drop_eq_nil_of_le (by omega)
    rw [hs2] at hsq
    have hpl1 := parsePlane_empty "unknown" g1 colStart rowStart (2 * qw) (2 * qh)
      (by omega) (by omega)
    refine ⟨g1, ?_, ?_⟩
    · unfold Parse parsePlanes
      simp only [hq, hsq, hpl1]
    · intro c r
      refine ⟨?_, ?_, ?_, ?_⟩ <;>
        · rw [parseSqRows_preserves hsq _ (by decide) c r]
          rfl
  · intro hlen
    obtain ⟨g1, hsq⟩ := parseSqRows_succeeds qw colStart emptyGrid s1 rowStart qh
      (by omega) hids hb hrow
    have hs2len : (s1.drop (2 * (qw * qh))).length = 2 * (2 * qw * (2 * qh)) := by
      simp
      omega
    obtain ⟨g2, hpl1, hpres1⟩ := parsePlane_run "unknown" g1 (s1.drop (2 * (qw * qh)))
      colStart rowStart (2 * qw) (2 * qh) (by omega) (by omega)
      (drop_ne_nil_of_lt (by omega)) (by omega) hb hrow
    have hs3 : (s1.drop (2 * (qw * qh))).drop (2 * (2 * qw * (2 * qh))) = [] :=
      List.drop_eq_nil_of_le (by omega)
    rw [hs3] at hpl1
    have hpl2 := parsePlane_empty "dunMonsterID" g2 colStart rowStart (2 * qw) (2 * qh)
      (by omega) (by omega)
    refine ⟨g2, ?_, ?_⟩
    · unfold Parse parsePlanes
      simp only [hq, hsq, hpl1, hpl2]
    · intro c r
      refine ⟨?_, ?_, ?_⟩ <;>
        · rw [hpres1 _ (by decide) c r, parseSqRows_preserves hsq _ (by decide) c r]
          rfl
  · intro hlen
    obtain ⟨g1, hsq⟩ := parseSqRows_succeeds qw colStart emptyGrid s1 rowStart qh
      (by omega) hids hb hrow
    have hs2len : (s1.drop (2 * (qw * qh))).length = 2 * (2 * (2 * qw * (2 * qh))) := by
      simp
      omega
    obtain ⟨g2, hpl1, hpres1⟩ := parsePlane_run "unknown" g1 (s1.drop (2 * (qw * qh)))
      colStart rowStart (2 * qw) (2 * qh) (by omega) (by omega)
      (drop_ne_nil_of_lt (by omega)) (by omega) hb hrow
    have hs3len : ((s1.drop (2 * (qw * qh))).drop (2 * (2 * qw * (2 * qh)))).length
        = 2 * (2 * qw * (2 * qh)) := by
      simp
      omega
    obtain ⟨g3, hpl2, hpres2⟩ := parsePlane_run "dunMonsterID" g2
      ((s1.drop (2 * (qw * qh))).drop (2 * (2 * qw * (2 * qh))))
      colStart rowStart (2 * qw) (2 * qh) (by omega) (by omega)
      (drop_ne_nil_of_lt (by omega)) (by omega) hb hrow
    have hs4 : (((s1.drop (2 * (qw * qh))).drop (2 * (2 * qw * (2 * qh)))).drop
        (2 * (2 * qw * (2 * qh)))) = [] := List.drop_eq_nil_of_le (by omega)
    rw [hs4] at hpl2
    have hpl3 := parsePlane_empty "dunObjectID" g3 colStart rowStart (2 * qw) (2 * qh)
      (by omega) (by omega)
    refine ⟨g3, ?_, ?_⟩
    · unfold Parse parsePlanes
      simp only [hq, hsq, hpl1, hpl2, hpl3]
    · intro c r
      refine ⟨?_, ?_⟩ <;>
        · rw [hpres2 _ (by decide) c r, hpres1 _ (by decide) c r,
            parseSqRows_preserves hsq _ (by decide) c r]
          rfl
  · intro hlen
    obtain ⟨g1, hsq⟩ := parseSqRows_succeeds qw colStart emptyGrid s1 rowStart qh
      (by omega) hids hb hrow
    have hs2len : (s1.drop (2 * (qw * qh))).length = 3 * (2 * (2 * qw * (2 * qh))) := by
      simp
      omega
    obtain ⟨g2, hpl1, hpres1⟩ := parsePlane_run "unknown" g1 (s1.drop (2 * (qw * qh)))
      colStart rowStart (2 * qw) (2 * qh) (by omega) (by omega)
      (drop_ne_nil_of_lt (by omega)) (by omega) hb hrow
    have hs3len : ((s1.drop (2 * (qw * qh))).drop (2 * (2 * qw * (2 * qh)))).length
        = 2 * (2 * (2 * qw * (2 * qh))) := by
      simp
      omega
    obtain ⟨g3, hpl2, hpres2⟩ := parsePlane_run "dunMonsterID" g2
      ((s1.drop (2 * (qw * qh))).drop (2 * (2 * qw * (2 * qh))))
      colStart rowStart (2 * qw) (2 * qh) (by omega) (by omega)
      (drop_ne_nil_of_lt (by omega)) (by omega) hb hrow
    have hs4len : (((s1.drop (2 * (qw * qh))).drop (2 * (2 * qw * (2 * qh)))).drop
        (2 * (2 * qw * (2 * qh)))).length = 2 * (2 * qw * (2 * qh)) := by
      simp
      omega
    obtain ⟨g4, hpl3, hpres3⟩ := parsePlane_run "dunObjectID" g3
      (((s1.drop (2 * (qw * qh))).drop (2 * (2 * qw * (2 * qh)))).drop
        (2 * (2 * qw * (2 * qh))))
      colStart rowStart (2 * qw) (2 * qh) (by omega) (by omega)
      (drop_ne_nil_of_lt (by omega)) (by omega) hb hrow
    have hs5 : ((((s1.drop (2 * (qw * qh))).drop (2 * (2 * qw * (2 * qh)))).drop
        (2 * (2 * qw * (2 * qh)))).drop (2 * (2 * qw * (2 * qh)))) = [] :=
      List.drop_eq_nil_of_le (by omega)
    rw [hs5] at hpl3
    have hpl4 := parsePlane_empty "transparency" g4 colStart rowStart (2 * qw) (2 * qh)
      (by omega) (by omega)
    refine ⟨g4, ?_, ?_⟩
    · unfold Parse parsePlanes
      simp only [hq, hsq, hpl1, hpl2, hpl3, hpl4]
    · intro c r
      rw [hpres3 _ (by decide) c r, hpres2 _ (by decide) c r, hpres1 _ (by decide) c r,
        parseSqRows_preserves hsq _ (by decide) c r]
      rfl
  · intro hge hlt hne0 hne1 hne2 hne3
    obtain ⟨g1, hsq⟩ := parseSqRows_succeeds qw colStart emptyGrid s1 rowStart qh
      hge hids hb hrow
    have hs2len : (s1.drop (2 * (qw * qh))).length = s1.length - 2 * (qw * qh) := by
      simp
    by_cases hc1 : s1.length < 2 * (qw * qh) + 1 * (2 * (2 * qw * (2 * qh)))
    · obtain ⟨e, hpl1⟩ := parsePlane_err "unknown" g1 (s1.drop (2 * (qw * qh)))
        colStart rowStart (2 * qw) (2 * qh) (by omega) (by omega)
        (drop_ne_nil_of_lt (by omega)) (by omega) hb hrow
      refine ⟨e, ?_⟩
      unfold Parse parsePlanes
      simp only [hq, hsq, hpl1]
    · obtain ⟨g2, hpl1, _⟩ := parsePlane_run "unknown" g1 (s1.drop (2 * (qw * qh)))
        colStart rowStart (2 * qw) (2 * qh) (by omega) (by omega)
        (drop_ne_nil_of_lt (by omega)) (by omega) hb hrow
      have hs3len : ((s1.drop (2 * (qw * qh))).drop (2 * (2 * qw * (2 * qh)))).length
          = s1.length - 2 * (qw * qh) - 2 * (2 * qw * (2 * qh)) := by
        simp
        omega
      by_cases hc2 : s1.length < 2 * (qw * qh) + 2 * (2 * (2 * qw * (2 * qh)))
      · obtain ⟨e, hpl2⟩ := parsePlane_err "dunMonsterID" g2
          ((s1.drop (2 * (qw * qh))).drop (2 * (2 * qw * (2 * qh))))
          colStart rowStart (2 * qw) (2 * qh) (by omega) (by omega)
          (drop_ne_nil_of_lt (by omega)) (by omega) hb hrow
        refine ⟨e, ?_⟩
        unfold Parse parsePlanes
        simp only [hq, hsq, hpl1, hpl2]
      · obtain ⟨g3, hpl2, _⟩ := parsePlane_run "dunMonsterID" g2
          ((s1.drop (2 * (qw * qh))).drop (2 * (2 * qw * (2 * qh))))
          colStart rowStart (2 * qw) (2 * qh) (by omega) (by omega)
          (drop_ne_nil_of_lt (by omega)) (by omega) hb hrow
        have hs4len : (((s1.drop (2 * (qw * qh))).drop (2 * (2 * qw * (2 * qh)))).drop
            (2 * (2 * qw * (2 * qh)))).length
            = s1.length - 2 * (qw * qh) - 2 * (2 * qw * (2 * qh))
              - 2 * (2 * qw * (2 * qh)) := by
          simp
          omega
        by_cases hc3 : s1.length < 2 * (qw * qh) + 3 * (2 * (2 * qw * (2 * qh)))
        · obtain ⟨e, hpl3⟩ := parsePlane_err "dunObjectID" g3
            (((s1.drop (2 * (qw * qh))).drop (2 * (2 * qw * (2 * qh)))).drop
              (2 * (2 * qw * (2 * qh))))
            colStart rowStart (2 * qw) (2 * qh) (by omega) (by omega)
            (drop_ne_nil_of_lt (by omega)) (by omega) hb hrow
          refine ⟨e, ?_⟩
          unfold Parse parsePlanes
          simp only [hq, hsq, hpl1, hpl2, hpl3]
        · obtain ⟨g4, hpl3, _⟩ := parsePlane_run "dunObjectID" g3
            (((s1.drop (2 * (qw * qh))).drop (2 * (2 * qw * (2 * qh)))).drop
              (2 * (2 * qw * (2 * qh))))
            colStart rowStart (2 * qw) (2 * qh) (by omega) (by omega)
            (drop_ne_nil_of_lt (by omega)) (by omega) hb hrow
          have hs5len : ((((s1.drop (2 * (qw * qh))).drop (2 * (2 * qw * (2 * qh)))).drop
              (2 * (2 * qw * (2 * qh)))).drop (2 * (2 * qw * (2 * qh)))).length
              = s1.length - 2 * (qw * qh) - 2 * (2 * qw * (2 * qh))
                - 2 * (2 * qw * (2 * qh)) - 2 * (2 * qw * (2 * qh)) := by
            simp
            omega
          obtain ⟨e, hpl4⟩ := parsePlane_err "transparency" g4
            ((((s1.drop (2 * (qw * qh))).drop (2 * (2 * qw * (2 * qh)))).drop
              (2 * (2 * qw * (2 * qh)))).drop (2 * (2 * qw * (2 * qh))))
            colStart rowStart (2 * qw) (2 * qh) (by omega) (by omega)
            (drop_ne_nil_of_lt (by omega)) (by omega) hb hrow
          refine ⟨e, ?_⟩
          unfold Parse parsePlanes
          simp only [hq, hsq, hpl1, hpl2, hpl3, hpl4]

/-- Claim C4 witness: a 1×1 DUN stream ending exactly at the start of the
`unknown` plane parses successfully with no trailing-plane attributes. -/
theorem dun_C4_witness :
    ∃ g, Parse [] 0 0 emptyGrid [1, 0, 1, 0, 0, 0] = .ok g ∧
      ∀ c r, attrGet (g c r) "unknown" = none ∧ attrGet (g c r) "dunMonsterID" = none ∧
        attrGet (g c r) "dunObjectID" = none ∧ attrGet (g c r) "transparency" = none :=
  (dun_C4 [] 0 0 [1, 0, 1, 0, 0, 0] 1 1 [0, 0] rfl (by omega) (by omega) (by decide)
    (by decide)
    (fun k hk hv => absurd (show val16 [0, 0] k = 0 by
      rw [show k = 0 by omega]
      decide) hv)).1 (by decide)

/-! ### Claim C6: the compositor draw trace -/

theorem ite_min_eq (x d : Int) (hd : 0 ≤ d) : (if x ≤ x + d then x else x + d) = x := by
  rw [if_pos (by omega)]

theorem ite_min_eq_neg (x d : Int) (hd : d < 0) :
    (if x ≤ x + d then x else x + d) = x + d := by
  rw [if_neg (by omega)]

theorem GetPillarRect_inj {c1 r1 c2 r2 : Nat} {mw ph : Int}
    (h : GetPillarRect (Int.ofNat c1) (Int.ofNat r1) mw ph
       = GetPillarRect (Int.ofNat c2) (Int.ofNat r2) mw ph) : c1 = c2 ∧ r1 = r2 := by
  simp only [GetPillarRect, imageRect, GoRect.mk.injEq, PillarWidth, BlockWidth,
    BlockHeight, Int.ofNat_eq_coe] at h
  rw [show Int.tdiv (32 : Int) 2 = 16 by decide] at h
  obtain ⟨h1, h2, _, _⟩ := h
  obtain ⟨q, hq⟩ : ∃ q : Int, Int.tdiv mw 2 = q := ⟨_, rfl⟩
  rw [hq] at h1
  rw [ite_min_eq _ _ (by omega), ite_min_eq _ _ (by omega)] at h1
  by_cases hph : 0 ≤ ph
  · rw [ite_min_eq _ _ hph, ite_min_eq _ _ hph] at h2
    constructor <;> omega
  · rw [ite_min_eq_neg _ _ (by omega), ite_min_eq_neg _ _ (by omega)] at h2
    constructor <;> omega

theorem imageCols_pair {g : Grid} {row : Nat} {mw ph : Int} {p a : Int} (col c0 n : Nat)
    (h1 : c0 ≤ col) (h2 : col < c0 + n)
    (hp : attrGet (g col row) "pillarNum" = some p) (ha : getArchID p = some a) :
    ∃ pre suf, imageCols g row mw ph c0 n =
      pre ++ ⟨GetPillarRect (Int.ofNat col) (Int.ofNat row) mw ph, .pillarSrc p⟩ ::
        ⟨GetPillarRect (Int.ofNat col) (Int.ofNat row) mw ph, .archSrc a⟩ :: suf := by
  induction n generalizing c0 with
  | zero => omega
  | succ n ih =>
    by_cases hc : col = c0
    · subst hc
      refine ⟨[], imageCols g row mw ph (col + 1) n, ?_⟩
      simp only [imageCols, hp, ha]
      rfl
    · obtain ⟨pre, suf, hrec⟩ := ih (c0 + 1) (by omega) (by omega)
      cases hpc : attrGet (g c0 row) "pillarNum" with
      | none =>
        refine ⟨pre, suf, ?_⟩
        simp only [imageCols, hpc, List.nil_append]
        exact hrec
      | some p1 =>
        cases hac : getArchID p1 with
        | none =>
          refine ⟨⟨GetPillarRect (Int.ofNat c0) (Int.ofNat row) mw ph, .pillarSrc p1⟩ :: pre,
            suf, ?_⟩
          simp only [imageCols, hpc, hac, hrec]
          rfl
        | some a1 =>
          refine ⟨⟨GetPillarRect (Int.ofNat c0) (Int.ofNat row) mw ph, .pillarSrc p1⟩ ::
            ⟨GetPillarRect (Int.ofNat c0) (Int.ofNat row) mw ph, .archSrc a1⟩ :: pre, suf, ?_⟩
          simp only [imageCols, hpc, hac, hrec]
          rfl

theorem imageRows_split (g : Grid) (colCount : Nat) (mw ph : Int) (row r0 n : Nat)
    (h1 : r0 ≤ row) (h2 : row < r0 + n) :
    ∃ pre suf, imageRows g colCount mw ph r0 n =
      pre ++ imageCols g row mw ph 0 colCount ++ suf := by
  induction n generalizing r0 with
  | zero => omega
  | succ n ih =>
    by_cases hr : row = r0
    · subst hr
      exact ⟨[], imageRows g colCount mw ph (row + 1) n, by simp [imageRows]⟩
    · obtain ⟨pre, suf, hrec⟩ := ih (r0 + 1) (by omega) (by omega)
      refine ⟨imageCols g r0 mw ph 0 colCount ++ pre, suf, ?_⟩
      simp only [imageRows, hrec, List.append_assoc]

theorem imageCols_base_mem {g : Grid} {row : Nat} {mw ph : Int} {p : Int} (col c0 n : Nat)
    (h1 : c0 ≤ col) (h2 : col < c0 + n)
    (hp : attrGet (g col row) "pillarNum" = some p) :
    (⟨GetPillarRect (Int.ofNat col) (Int.ofNat row) mw ph, .pillarSrc p⟩ : DrawOp)
      ∈ imageCols g row mw ph c0 n := by
  induction n generalizing c0 with
  | zero => omega
  | succ n ih =>
    by_cases hc : col = c0
    · subst hc
      simp only [imageCols, hp]
      cases hac : getArchID p <;> simp
    · have hrec := ih (c0 + 1) (by omega) (by omega)
      simp only [imageCols]
      exact List.mem_append_right _ hrec

theorem imageCols_mem {g : Grid} {row : Nat} {mw ph : Int} {op : DrawOp} (c0 n : Nat)
    (h : op ∈ imageCols g row mw ph c0 n) :
    ∃ col, c0 ≤ col ∧ col < c0 + n ∧ ∃ p1,
      attrGet (g col row) "pillarNum" = some p1 ∧
      (op = ⟨GetPillarRect (Int.ofNat col) (Int.ofNat row) mw ph, .pillarSrc p1⟩ ∨
       ∃ a, getArchID p1 = some a ∧
         op = ⟨GetPillarRect (Int.ofNat col) (Int.ofNat row) mw ph, .archSrc a⟩) := by
  induction n generalizing c0 with
  | zero => simp [imageCols] at h
  | succ n ih =>
    simp only [imageCols] at h
    rcases List.mem_append.1 h with hin | hin
    · refine ⟨c0, by omega, by omega, ?_⟩
      cases hpc : attrGet (g c0 row) "pillarNum" with
      | none => simp only [hpc] at hin; simp at hin
      | some p1 =>
        simp only [hpc] at hin
        refine ⟨p1, rfl, ?_⟩
        cases hac : getArchID p1 with
        | none =>
          simp only [hac] at hin
          simp at hin
          exact Or.inl hin
        | some a1 =>
          simp only [hac] at hin
          simp at hin
          rcases hin with hin | hin
          · exact Or.inl hin
          · exact Or.inr ⟨a1, rfl, hin⟩
    · obtain ⟨col, hc1, hc2, rest⟩ := ih (c0 + 1) hin
      exact ⟨col, by omega, by omega, rest⟩

theorem imageRows_mem {g : Grid} {colCount : Nat} {mw ph : Int} {op : DrawOp} (r0 n : Nat)
    (h : op ∈ imageRows g colCount mw ph r0 n) :
    ∃ row, r0 ≤ row ∧ row < r0 + n ∧ op ∈ imageCols g row mw ph 0 colCount := by
  induction n generalizing r0 with
  | zero => simp [imageRows] at h
  | succ n ih =>
    simp only [imageRows] at h
    rcases List.mem_append.1 h with hin | hin
    · exact ⟨r0, by omega, by omega, hin⟩
    · obtain ⟨row, hr1, hr2, rest⟩ := ih (r0 + 1) hin
      exact ⟨row, by omega, by omega, rest⟩

/-- Claim C6: for every cell with a present `pillarNum`, the `Image` trace
draws the base pillar raster at the cell's rectangle (with `draw.Over`), and
when the pillar id is one of the floor-shadow-arch identifiers the matching
arch overlay raster is drawn into the same rectangle immediately after the
base pillar; when the pillar id is not in the arch set, no arch overlay is
ever drawn at that cell's rectangle. -/
theorem dunmini_C6 (g : Grid) (colCount rowCount : Nat) (ph : Int) (col row : Nat) (p : Int)
    (hcol : col < colCount) (hrow : row < rowCount)
    (hp : attrGet (g col row) "pillarNum" = some p) :
    (∀ a, getArchID p = some a →
      ∃ pre suf, imageOps g colCount rowCount ph =
        pre ++ ⟨GetPillarRect (Int.ofNat col) (Int.ofNat row)
            ((max colCount rowCount : Nat) * BlockWidth +
              (max colCount rowCount : Nat) * BlockWidth) ph, .pillarSrc p⟩ ::
          ⟨GetPillarRect (Int.ofNat col) (Int.ofNat row)
            ((max colCount rowCount : Nat) * BlockWidth +
              (max colCount rowCount : Nat) * BlockWidth) ph, .archSrc a⟩ :: suf) ∧
    (⟨GetPillarRect (Int.ofNat col) (Int.ofNat row)
        ((max colCount rowCount : Nat) * BlockWidth +
          (max colCount rowCount : Nat) * BlockWidth) ph, .pillarSrc p⟩ : DrawOp)
      ∈ imageOps g colCount rowCount ph ∧
    (getArchID p = none → ∀ a,
      (⟨GetPillarRect (Int.ofNat col) (Int.ofNat row)
          ((max colCount rowCount : Nat) * BlockWidth +
            (max colCount rowCount : Nat) * BlockWidth) ph, .archSrc a⟩ : DrawOp)
        ∉ imageOps g colCount rowCount ph) := by
  refine ⟨?_, ?_, ?_⟩
  · intro a ha
    obtain ⟨preR, sufR, hsplit⟩ := imageRows_split g colCount
      ((max colCount rowCount : Nat) * BlockWidth +
        (max colCount rowCount : Nat) * BlockWidth) ph row 0 rowCount (by omega) (by omega)
    obtain ⟨preC, sufC, hpair⟩ := imageCols_pair col 0 colCount (by omega) (by omega) hp ha
    refine ⟨preR ++ preC, sufC ++ sufR, ?_⟩
    unfold imageOps
    rw [hsplit, hpair]
    simp [List.append_assoc]
  · obtain ⟨preR, sufR, hsplit⟩ := imageRows_split g colCount
      ((max colCount rowCount : Nat) * BlockWidth +
        (max colCount rowCount : Nat) * BlockWidth) ph row 0 rowCount (by omega) (by omega)
    unfold imageOps
    rw [hsplit]
    simp only [List.mem_append]
    exact Or.inl (Or.inr (imageCols_base_mem col 0 colCount (by omega) (by omega) hp))
  · intro hnone a hmem
    unfold imageOps at hmem
    obtain ⟨row1, _, hr2, hin⟩ := imageRows_mem 0 rowCount hmem
    obtain ⟨col1, _, hc2, p1, hp1, hshape⟩ := imageCols_mem 0 colCount hin
    rcases hshape with hop | ⟨a1, ha1, hop⟩
    · exact DrawSrc.noConfusion (congrArg DrawOp.src hop)
    · obtain ⟨hceq, hreq⟩ := GetPillarRect_inj (congrArg DrawOp.rect hop)
      subst hceq
      subst hreq
      rw [hp] at hp1
      cases hp1
      rw [hnone] at ha1
      exact Option.noConfusion ha1

/-- Concrete instantiation of `dunmini_C6`: a 1x1 grid whose only cell holds
pillar id 11 (a floor-shadow-arch id mapping to `ArchSw`) draws the base
pillar immediately followed by the arch overlay in the same rectangle. -/
theorem dunmini_C6_witness :
    ∃ pre suf,
      imageOps (fun c r => if c = 0 ∧ r = 0 then [("pillarNum", (11 : Int))] else [])
          1 1 32 =
        pre ++ ⟨GetPillarRect (Int.ofNat 0) (Int.ofNat 0)
            ((max 1 1 : Nat) * BlockWidth + (max 1 1 : Nat) * BlockWidth) 32,
            .pillarSrc 11⟩ ::
          ⟨GetPillarRect (Int.ofNat 0) (Int.ofNat 0)
            ((max 1 1 : Nat) * BlockWidth + (max 1 1 : Nat) * BlockWidth) 32,
            .archSrc ArchSw⟩ :: suf :=
  (dunmini_C6 (fun c r => if c = 0 ∧ r = 0 then [("pillarNum", (11 : Int))] else [])
    1 1 32 0 0 11 (by decide) (by decide) (by decide)).1 ArchSw (by decide)

end Blizzconv

